import Mathlib

/-!
Verification of the QDA codec (`qdafile.py`).

The module is shallowly embedded: byte streams are `List Nat` (each entry a
byte value `< 256`), Python exceptions become an explicit `Err` type and
fallible functions return `Except Err _`.  The numpy element-level
serialization (`astype(dtype).tofile` / `numpy.fromfile(dtype)`) is external
to the repository; it is abstracted as a `Codec` of per-element
serialize/deserialize functions together with the round-trip ("precision
loss") function `rt`, so that everything the module itself is responsible
for -- the byte layout, offsets, padding, trailers, error paths -- is
modelled concretely.  A fully concrete instance `byteCodec` (an element is
its own byte block) is used for executable checks.
-/

namespace Qdafile

/-- The Python exceptions raised by the module (`OSError`, `ValueError`,
`NotImplementedError`, plus the unguarded `KeyError`/`IndexError` escapes). -/
inductive Err
  | osError (msg : String)
  | valueError (msg : String)
  | notImplementedError
  | keyError
  | indexError
deriving DecidableEq, Repr

/-- The four element types the decoder recognizes: `'>f4'`, `'>f8'`, `'>i4'`
and the fixed 40-byte string placeholder `'S40'`. -/
inductive Dtype
  | f4
  | f8
  | i4
  | s40
deriving DecidableEq, Repr

/-- `QDAfile.DTYPE_STR`: wire type tag to dtype (`{0: '>f4', 3: '>f8',
4: '>i4', 1: 'S40'}`); any other tag is absent (decode raises). -/
def DTYPE_STR (t : Int) : Option Dtype :=
  if t = 0 then some .f4
  else if t = 3 then some .f8
  else if t = 4 then some .i4
  else if t = 1 then some .s40
  else none

/-- `QDAfile.DTYPE_INT`: dtype to wire type tag (`{'>f4': 0, '>f8': 3,
'>i4': 4}`); `'S40'` is not a key, so looking it up raises `KeyError`. -/
def DTYPE_INT : Dtype → Option Int
  | .f4 => some 0
  | .f8 => some 3
  | .i4 => some 4
  | .s40 => none

/-- numpy element sizes of the four dtypes. -/
def elemsize : Dtype → Nat
  | .f4 => 4
  | .f8 => 8
  | .i4 => 4
  | .s40 => 40

/-- `QDAfile.FID`: the three known 2-byte file identifiers. -/
def FID : List Nat → Option Nat
  | [0, 6] => some 6
  | [0, 8] => some 8
  | [0, 12] => some 12
  | _ => none

/-- `struct.pack('>h', v)`: big-endian signed 16-bit, two's complement. -/
def pack_i16be (v : Int) : List Nat :=
  let u := (v % 65536).toNat
  [u / 256, u % 256]

/-- Reading a big-endian signed 16-bit integer (numpy `'>i2'`). -/
def read_i16be (b0 b1 : Nat) : Int :=
  let u := b0 * 256 + b1
  if u < 32768 then (u : Int) else (u : Int) - 65536

/-- `struct.pack('>i', v)`: big-endian signed 32-bit, two's complement. -/
def pack_i32be (v : Int) : List Nat :=
  let u := (v % 4294967296).toNat
  [u / 16777216, u / 65536 % 256, u / 256 % 256, u % 256]

/-- Reading a big-endian signed 16-bit integer from a 2-byte chunk. -/
def read_i16chunk (b : List Nat) : Int :=
  read_i16be (b.getD 0 0) (b.getD 1 0)

/-- Reading a big-endian signed 32-bit integer from a 4-byte chunk
(numpy `'>i4'`). -/
def read_i32chunk (b : List Nat) : Int :=
  let u := b.getD 0 0 * 16777216 + b.getD 1 0 * 65536 + b.getD 2 0 * 256 + b.getD 3 0
  if u < 2147483648 then (u : Int) else (u : Int) - 4294967296

theorem read_pack_i16 (v : Int) (h0 : -32768 ≤ v) (h1 : v < 32768) :
    read_i16chunk (pack_i16be v) = v := by
  simp only [pack_i16be, read_i16chunk, read_i16be, List.getD_cons_zero, List.getD_cons_succ]
  split <;> omega

theorem read_pack_i32 (v : Int) (h0 : -2147483648 ≤ v) (h1 : v < 2147483648) :
    read_i32chunk (pack_i32be v) = v := by
  simp only [pack_i32be, read_i32chunk, List.getD_cons_zero, List.getD_cons_succ]
  split <;> omega

theorem pack_i16be_length (v : Int) : (pack_i16be v).length = 2 := rfl

theorem pack_i32be_length (v : Int) : (pack_i32be v).length = 4 := rfl

/-! ## `unique_headers`

The Python function iterates three nested loops over
`chars = 'ABCDEFGHIJKLMNOPQRSTUVWXYZ'`, testing `if number:` *before* each
append and returning the accumulated list as soon as `number` reaches `0`;
if all three loops complete without the counter reaching zero *before* some
iteration, the trailing `raise NotImplementedError` fires.  Headers are
modelled as their Latin-1 byte lists.  The nested loops enumerate the
candidate labels in a fixed order (single letters, then two-letter labels
with the first letter as the outer loop, then three-letter labels), so the
control flow is modelled exactly by walking that fixed candidate list:
before consuming each candidate the counter is tested, and falling off the
end of the list raises. -/

/-- `chars = 'ABCDEFGHIJKLMNOPQRSTUVWXYZ'` as Latin-1 bytes. -/
def chars : List Nat := "ABCDEFGHIJKLMNOPQRSTUVWXYZ".toList.map Char.toNat

/-- The single-letter labels produced by the first loop of
`unique_headers`. -/
def singles : List (List Nat) := chars.map (fun i => [i])

/-- The two-letter labels produced by the second (nested) loop of
`unique_headers`: the first letter `i` is the outer loop. -/
def doubles : List (List Nat) := chars.flatMap (fun i => chars.map (fun j => [i, j]))

/-- The three-letter labels produced by the third (doubly nested) loop of
`unique_headers`. -/
def triples : List (List Nat) :=
  chars.flatMap (fun i => chars.flatMap (fun j => chars.map (fun k => [i, j, k])))

/-- All candidate labels in the order the loops of `unique_headers` visit
them. -/
def allLabels : List (List Nat) := singles ++ doubles ++ triples

/-- One loop step of `unique_headers`: before each candidate label the
counter is tested (`if number:`), returning the accumulated list when it is
zero; exhausting the candidates reaches `raise NotImplementedError`. -/
def takeLabels : List (List Nat) → Nat → Except Err (List (List Nat))
  | [], _ => .error .notImplementedError
  | l :: ls, n => if n = 0 then .ok [] else (takeLabels ls (n - 1)).map (l :: ·)

/-- `unique_headers(number)`. -/
def unique_headers (number : Nat) : Except Err (List (List Nat)) :=
  takeLabels allLabels number

/-- A Latin-1 string as its byte list (for readable statements). -/
def latin1 (s : String) : List Nat := s.toList.map Char.toNat

theorem takeLabels_ok (ls : List (List Nat)) :
    ∀ n, n < ls.length → takeLabels ls n = .ok (ls.take n) := by
  induction ls with
  | nil => intro n h; simp at h
  | cons l ls ih =>
    intro n h
    match n with
    | 0 => simp [takeLabels]
    | n + 1 =>
      simp only [takeLabels, Nat.add_one_ne_zero, if_false, Nat.add_sub_cancel]
      rw [ih n (by simpa using h)]
      simp [Except.map, List.take_succ_cons]

theorem takeLabels_err (ls : List (List Nat)) :
    ∀ n, ls.length ≤ n → takeLabels ls n = .error .notImplementedError := by
  induction ls with
  | nil => intro n _; rfl
  | cons l ls ih =>
    intro n h
    match n with
    | 0 => exact absurd h (by simp)
    | n + 1 =>
      simp only [takeLabels, Nat.add_one_ne_zero, if_false, Nat.add_sub_cancel]
      rw [ih n (by simpa using h)]
      rfl

theorem chars_length : chars.length = 26 := rfl

theorem singles_length : singles.length = 26 := rfl

theorem doubles_length : doubles.length = 676 := by
  rw [doubles, List.length_flatMap]
  simp only [Function.comp_def, List.length_map, chars_length, List.map_const',
    List.sum_replicate, smul_eq_mul]

theorem triples_length : triples.length = 17576 := by
  rw [triples, List.length_flatMap]
  have h1 : (List.length ∘ fun i => chars.flatMap (fun j => chars.map (fun k => [i, j, k])))
      = fun _ : Nat => 676 := by
    funext i
    simp only [Function.comp_apply, List.length_flatMap, Function.comp_def, List.length_map,
      chars_length, List.map_const', List.sum_replicate, smul_eq_mul]
  rw [h1, List.map_const', chars_length, List.sum_replicate, smul_eq_mul]

theorem allLabels_length : allLabels.length = 18278 := by
  simp [allLabels, singles_length, doubles_length, triples_length]

theorem chars_nodup : chars.Nodup := by decide

theorem chars_ne_zero : ∀ b ∈ chars, b ≠ 0 := by decide

theorem singles_nodup : singles.Nodup :=
  List.Nodup.map (fun a b h => by injection h) chars_nodup

theorem doubles_nodup : doubles.Nodup := by
  rw [doubles, List.nodup_flatMap]
  refine ⟨fun i _ => List.Nodup.map (fun a b h => by injection h with _ h; injection h)
    chars_nodup, ?_⟩
  refine List.Pairwise.imp ?_ chars_nodup
  intro a b hab x hxa hxb
  obtain ⟨j, hj, rfl⟩ := List.mem_map.mp hxa
  obtain ⟨k, hk, heq⟩ := List.mem_map.mp hxb
  exact hab (List.cons.inj heq).1.symm

theorem triples_nodup : triples.Nodup := by
  rw [triples, List.nodup_flatMap]
  constructor
  · intro i _
    rw [List.nodup_flatMap]
    refine ⟨fun j _ => List.Nodup.map
      (fun a b h => by injection h with _ h; injection h with _ h; injection h) chars_nodup, ?_⟩
    refine List.Pairwise.imp ?_ chars_nodup
    intro a b hab x hxa hxb
    obtain ⟨k, hk, rfl⟩ := List.mem_map.mp hxa
    obtain ⟨k2, hk2, heq⟩ := List.mem_map.mp hxb
    exact hab (List.cons.inj (List.cons.inj heq).2).1.symm
  · refine List.Pairwise.imp ?_ chars_nodup
    intro a b hab x hxa hxb
    obtain ⟨j, hj, hmema⟩ := List.mem_flatMap.mp hxa
    obtain ⟨j2, hj2, hmemb⟩ := List.mem_flatMap.mp hxb
    obtain ⟨k, hk, rfl⟩ := List.mem_map.mp hmema
    obtain ⟨k2, hk2, heq⟩ := List.mem_map.mp hmemb
    exact hab (List.cons.inj heq).1.symm

theorem mem_singles_length : ∀ l ∈ singles, l.length = 1 := by
  intro l hl
  obtain ⟨i, _, rfl⟩ := List.mem_map.mp hl
  rfl

theorem mem_doubles_length : ∀ l ∈ doubles, l.length = 2 := by
  intro l hl
  obtain ⟨i, _, hmem⟩ := List.mem_flatMap.mp hl
  obtain ⟨j, _, rfl⟩ := List.mem_map.mp hmem
  rfl

theorem mem_triples_length : ∀ l ∈ triples, l.length = 3 := by
  intro l hl
  obtain ⟨i, _, hmem⟩ := List.mem_flatMap.mp hl
  obtain ⟨j, _, hmem2⟩ := List.mem_flatMap.mp hmem
  obtain ⟨k, _, rfl⟩ := List.mem_map.mp hmem2
  rfl

theorem allLabels_nodup : allLabels.Nodup := by
  rw [allLabels]
  refine List.Nodup.append (List.Nodup.append singles_nodup doubles_nodup ?_) triples_nodup ?_
  · intro x hxs hxd
    have h1 := mem_singles_length x hxs
    have h2 := mem_doubles_length x hxd
    omega
  · intro x hx hxt
    have h3 := mem_triples_length x hxt
    rcases List.mem_append.mp hx with h | h
    · have := mem_singles_length x h
      omega
    · have := mem_doubles_length x h
      omega

theorem mem_allLabels_chars : ∀ l ∈ allLabels, l.length ≤ 3 ∧ ∀ b ∈ l, b ∈ chars := by
  intro l hl
  rcases List.mem_append.mp hl with h | h3
  · rcases List.mem_append.mp h with h1 | h2
    · obtain ⟨i, hi, rfl⟩ := List.mem_map.mp h1
      refine ⟨by simp, ?_⟩
      intro b hb
      rcases List.mem_singleton.mp hb with rfl
      exact hi
    · obtain ⟨i, hi, hmem⟩ := List.mem_flatMap.mp h2
      obtain ⟨j, hj, rfl⟩ := List.mem_map.mp hmem
      refine ⟨by simp, ?_⟩
      intro b hb
      rcases List.mem_cons.mp hb with rfl | hb2
      · exact hi
      rcases List.mem_singleton.mp hb2 with rfl
      exact hj
  · obtain ⟨i, hi, hmem⟩ := List.mem_flatMap.mp h3
    obtain ⟨j, hj, hmem2⟩ := List.mem_flatMap.mp hmem
    obtain ⟨k, hk, rfl⟩ := List.mem_map.mp hmem2
    refine ⟨by simp, ?_⟩
    intro b hb
    rcases List.mem_cons.mp hb with rfl | hb2
    · exact hi
    rcases List.mem_cons.mp hb2 with rfl | hb3
    · exact hj
    rcases List.mem_singleton.mp hb3 with rfl
    exact hk

theorem unique_headers_ok (n : Nat) (h : n < 18278) :
    unique_headers n = .ok (allLabels.take n) :=
  takeLabels_ok allLabels n (by rw [allLabels_length]; exact h)

theorem unique_headers_err (n : Nat) (h : 18278 ≤ n) :
    unique_headers n = .error .notImplementedError :=
  takeLabels_err allLabels n (by rw [allLabels_length]; exact h)

theorem take_allLabels_length (n : Nat) (h : n ≤ 18278) : (allLabels.take n).length = n := by
  rw [List.length_take, allLabels_length]
  omega

theorem take_allLabels_nodup (n : Nat) : (allLabels.take n).Nodup :=
  List.Nodup.sublist (List.take_sublist n allLabels) allLabels_nodup

theorem mem_take_allLabels (n : Nat) (l : List Nat) (h : l ∈ allLabels.take n) :
    l.length ≤ 3 ∧ ∀ b ∈ l, b ∈ chars :=
  mem_allLabels_chars l (List.take_subset n allLabels h)

/-! ## Data model

`QDAfile` instances are modelled by `Table`.  The `name` attribute is pure
display/I-O glue (spec section 1) and is omitted.  Cell values have an
abstract type `V`; the numpy per-element byte conversion is a `Codec`.
Python strings holding headers are Latin-1, modelled as their byte lists. -/

/-- The per-element serialization that numpy performs
(`astype(dtype).tofile` on encode, `numpy.fromfile(dtype=...)` on decode).
`ser d v` is the big-endian byte block of one element, `de d b` reads one
element back from its block, and `rt d v` is the value that survives the
conversion to dtype `d` and back to float64 ("precision loss").  `nan` is
the not-a-number sentinel the decoder pre-fills the buffer with. -/
structure Codec (V : Type) where
  ser : Dtype → V → List Nat
  de : Dtype → List Nat → V
  rt : Dtype → V → V
  nan : V

/-- A fully concrete codec for executable checks: an element *is* its byte
block, padded/truncated to the element size, and `nan` is the empty
block. -/
def byteCodec : Codec (List Nat) where
  ser d v := v.take (elemsize d) ++ List.replicate (elemsize d - v.length) 0
  de _ b := b
  rt d v := v.take (elemsize d) ++ List.replicate (elemsize d - v.length) 0
  nan := []

theorem byteCodec_ser_length (d : Dtype) (v : List Nat) :
    (byteCodec.ser d v).length = elemsize d := by
  simp only [byteCodec, List.length_append, List.length_take, List.length_replicate]
  omega

theorem byteCodec_de_ser (d : Dtype) (v : List Nat) :
    byteCodec.de d (byteCodec.ser d v) = byteCodec.rt d v := rfl

/-- The in-memory table (`QDAfile` instance): `fid`, `columns`, per-column
`rows`, `headers` (Latin-1 byte lists), `dtypes`, and the dense `data`
buffer (`data[i][j]`; the decoder allocates `columns × max(rows)` cells). -/
structure Table (V : Type) where
  fid : Nat
  columns : Int
  rows : List Int
  headers : List (List Nat)
  dtypes : List Dtype
  data : List (List V)
deriving DecidableEq, Repr

/-- Python list/array slice `x[0:r]` (a negative stop counts from the
end, clamped at zero). -/
def pySlice {α : Type} (l : List α) (r : Int) : List α :=
  if 0 ≤ r then l.take r.toNat else l.take (l.length - (-r).toNat)

/-- Length of the slice `x[0:r]` of a length-`w` sequence. -/
def pySliceLen (w : Nat) (r : Int) : Nat :=
  if 0 ≤ r then min r.toNat w else w - (-r).toNat

theorem pySlice_length {α : Type} (l : List α) (r : Int) :
    (pySlice l r).length = pySliceLen l.length r := by
  simp only [pySlice, pySliceLen]
  split <;> simp [List.length_take]

/-! ## Encoder (`QDAfile._tofile`) -/

/-- A header emitted into a fixed slot of `n` bytes:
`b + b'\x00' * (n - len(b))` (for an overlong header the Python byte
repetition is empty, so the bytes are written unpadded). -/
def headerField (n : Nat) (h : List Nat) : List Nat :=
  h ++ List.replicate (n - h.length) 0

/-- The per-row marker `b'\x00\x01' * r` (empty for `r ≤ 0`). -/
def markerBytes (r : Int) : List Nat :=
  (List.replicate r.toNat ([0, 1] : List Nat)).flatten

/-- The fixed 8-byte constant column trailer tag
`b'\x0e\x02\x01\x00\x05\x00\x00\x01'`. -/
def colTag : List Nat := [14, 2, 1, 0, 5, 0, 0, 1]

/-- Everything `_tofile` writes for one column *after* the element payload:
the per-row marker repeated `r` times, the fixed 8-byte tag, and the header
again in a 128-byte slot. -/
def colTrailer (r : Int) (h : List Nat) : List Nat :=
  markerBytes r ++ colTag ++ headerField 128 h

/-- One column's element payload: `self.data[i, 0:r].astype(t).tofile(fh)`. -/
def colPayload {V : Type} (c : Codec V) (d : Dtype) (r : Int) (dataRow : List V) : List Nat :=
  (pySlice dataRow r).flatMap (c.ser d)

/-- Simultaneous zip of the three per-column attribute lists, truncating to
the shortest (`zip(self.rows, self.dtypes, self.headers, strict=False)`). -/
def zipRDH : List Int → List Dtype → List (List Nat) → List (Int × Dtype × List Nat)
  | r :: rs, d :: ds, h :: hs => (r, d, h) :: zipRDH rs ds hs
  | _, _, _ => []

/-- The type-tag loop of `_tofile`: `struct.pack('>h', QDAfile.DTYPE_INT[t])`
for each dtype; an `'S40'` dtype is not a key of `DTYPE_INT`, so the lookup
raises `KeyError`. -/
def dtypeIntsE : List Dtype → Except Err (List Int)
  | [] => .ok []
  | d :: rest =>
    match DTYPE_INT d with
    | none => .error .keyError
    | some n => (dtypeIntsE rest).map (n :: ·)

/-- The per-column write loop of `_tofile` (element payload, marker bytes,
tag, 128-byte header slot); `self.data[i]` for `i` beyond the data buffer
raises `IndexError`. -/
def tofileCols {V : Type} (c : Codec V) :
    List (Int × Dtype × List Nat) → List (List V) → Except Err (List Nat)
  | [], _ => .ok []
  | (r, d, h) :: rest, dataRows =>
    match dataRows with
    | [] => .error .indexError
    | row :: drest =>
      (tofileCols c rest drest).map (fun tail => colPayload c d r row ++ colTrailer r h ++ tail)

/-- The fixed 8-byte constant header tag
`b'\x00\x0e\x01\x02\x00\x05\x00\x01'`. -/
def headerTag : List Nat := [0, 14, 1, 2, 0, 5, 0, 1]

/-- The 512-byte header block `_tofile` emits: file identifier `b'\x00\x0c'`,
`struct.pack('>h', self.columns)`, the 8-byte tag, and `b'\x00' * (512-12)`. -/
def headerBlock (cols : Int) : List Nat :=
  [0, 12] ++ pack_i16be cols ++ headerTag ++ List.replicate (512 - 12) 0

/-- `QDAfile._tofile`: serialize a `Table` to the byte stream.  Python
writes incrementally to the file handle; an exception raised midway leaves
a partial file, which no property here observes, so the model returns the
error without the partial bytes. -/
def tofile {V : Type} (c : Codec V) (t : Table V) : Except Err (List Nat) :=
  match dtypeIntsE t.dtypes with
  | .error e => .error e
  | .ok tints =>
    match tofileCols c (zipRDH t.rows t.dtypes t.headers) t.data with
    | .error e => .error e
    | .ok cols =>
      .ok (headerBlock t.columns
        ++ t.rows.flatMap pack_i32be
        ++ tints.flatMap pack_i16be
        ++ t.headers.flatMap (headerField 40)
        ++ cols)

/-! ## Decoder (`QDAfile._fromfile`)

The stream is a byte list; each reading step returns what was read plus the
remaining stream.  `numpy.fromfile(fh, dtype, count)` reads `count` complete
elements when enough bytes remain; otherwise it reads to the end of the
stream and yields only the complete elements found (the file cursor then
rests at end-of-file).  A negative `count` makes numpy read the whole rest
of the stream.  `fh.read(n)` reads at most `n` bytes (all remaining bytes
if `n` is negative). -/

/-- Read up to `count` chunks of `k` bytes each (`numpy.fromfile` with a
nonnegative count): stops consuming after `count` chunks, but drains the
stream if fewer than `k` bytes remain. -/
def readChunks (k : Nat) : Nat → List Nat → List (List Nat) × List Nat
  | 0, s => ([], s)
  | n + 1, s =>
    if k ≤ s.length then
      let p := readChunks k n (s.drop k)
      (s.take k :: p.1, p.2)
    else ([], [])

/-- `numpy.fromfile(fh, dtype, count)` at element size `k`: a negative
count reads all complete elements in the remaining stream. -/
def readElems (k : Nat) (count : Int) (s : List Nat) : List (List Nat) × List Nat :=
  if 0 ≤ count then readChunks k count.toNat s else readChunks k s.length s

/-- The type-tag mapping loop of `_fromfile`: each 16-bit tag is looked up
in `DTYPE_STR`; the first unknown tag raises
`ValueError('the file contains data of unsupported type ...')`. -/
def dtypesOf : List Int → Except Err (List Dtype)
  | [] => .ok []
  | t :: rest =>
    match DTYPE_STR t with
    | none => .error (.valueError ("the file contains data of unsupported type " ++ toString t))
    | some d => (dtypesOf rest).map (d :: ·)

/-- Python `max` on a list of integers (raises on an empty list; callers
guard that case). -/
def maxInt : List Int → Int
  | [] => 0
  | [x] => x
  | x :: xs => max x (maxInt xs)

/-- One iteration of the column loop of `_fromfile`: read `row` elements of
the column's dtype, try to store them into the NaN-prefilled row of width
`W` (`data[i, 0:row] = ...`, with any exception suppressed), then skip the
`136 + 2*row`-byte trailer.  The numpy slice assignment succeeds when the
element count matches the slice length (or broadcasts a single element);
per the source comment ("can not store 'S40' data") assigning `'S40'`
elements into the float buffer always raises, so the row stays NaN while
the cursor still advances over the `40*row` payload bytes. -/
def decodeCol {V : Type} (c : Codec V) (W : Nat) (r : Int) (d : Dtype) (s : List Nat) :
    List V × List Nat :=
  let p := readElems (elemsize d) r s
  let m := pySliceLen W r
  let row : List V :=
    if d ≠ .s40 ∧ p.1.length = m then
      p.1.map (c.de d) ++ List.replicate (W - m) c.nan
    else if d ≠ .s40 ∧ p.1.length = 1 then
      List.replicate m (c.de d (p.1.getD 0 [])) ++ List.replicate (W - m) c.nan
    else
      List.replicate W c.nan
  let skip : Int := 136 + 2 * r
  (row, if 0 ≤ skip then p.2.drop skip.toNat else [])

/-- The column loop of `_fromfile` over `zip(rows, dtypes)` (zip truncates
to the shorter list). -/
def decodeCols {V : Type} (c : Codec V) (W : Nat) :
    List (Int × Dtype) → List Nat → List (List V) × List Nat
  | [], s => ([], s)
  | (r, d) :: rest, s =>
    let p := decodeCol c W r d s
    let q := decodeCols c W rest p.2
    (p.1 :: q.1, q.2)

/-- Step 1 of `_fromfile`: read the 2-byte identifier and look it up in
`FID`; an unknown pattern raises
`OSError('not a QDA file or unsupported version')`. -/
def parseFid (s : List Nat) : Except Err (Nat × List Nat) :=
  match FID (s.take 2) with
  | none => .error (.osError "not a QDA file or unsupported version")
  | some fid => .ok (fid, s.drop 2)

/-- Steps 2-3 of `_fromfile`: read the signed 16-bit column count
(`numpy.fromfile(fh, dtype='>i2', count=1)[0]`, an `IndexError` if the
stream ends first), reject counts outside `0..1000` with
`OSError('not a QDA file')`, then skip the remaining `512 - 4` reserved
header bytes. -/
def parseColumns (s : List Nat) : Except Err (Int × List Nat) :=
  if s.length < 2 then .error .indexError
  else
    let columns := read_i16be (s.getD 0 0) (s.getD 1 0)
    if columns < 0 ∨ 1000 < columns then .error (.osError "not a QDA file")
    else .ok (columns, (s.drop 2).drop 508)

/-- Step 4 of `_fromfile`: read `columns` row counts, 32-bit when
`fid == 12`, 16-bit for the legacy variants. -/
def parseRows (fid : Nat) (n : Nat) (s : List Nat) : List Int × List Nat :=
  let p := readChunks (if fid = 12 then 4 else 2) n s
  (p.1.map (if fid = 12 then read_i32chunk else read_i16chunk), p.2)

/-- Step 5 of `_fromfile`: read `columns` 16-bit type tags and map them
through `DTYPE_STR`. -/
def parseTypes (n : Nat) (s : List Nat) : Except Err (List Dtype × List Nat) :=
  let p := readChunks 2 n s
  match dtypesOf (p.1.map read_i16chunk) with
  | .error e => .error e
  | .ok dtypes => .ok (dtypes, p.2)

/-- Step 6 of `_fromfile`: read `columns` 40-byte header slots, each
truncated at its first zero byte (`s.split(b'\x00', 1)[0]`). -/
def parseHeaders (n : Nat) (s : List Nat) : List (List Nat) × List Nat :=
  let p := readChunks 40 n s
  (p.1.map (List.takeWhile (· ≠ 0)), p.2)

/-- `QDAfile._fromfile`: parse a byte stream into a `Table`.  Python raises
`OSError` for an unknown identifier or an out-of-range column count,
`IndexError` when the stream ends before the column count
(`numpy.fromfile(...)[0]` on an empty array), `ValueError` for an unknown
type tag, and `ValueError` from `numpy.empty` when `max(rows)` is negative.
The 512-byte header block is consumed as 2 (identifier) + 2 (column count)
+ 508 (skipped reserved bytes). -/
def fromfile {V : Type} (c : Codec V) (s : List Nat) : Except Err (Table V) :=
  match parseFid s with
  | .error e => .error e
  | .ok (fid, s1) =>
    match parseColumns s1 with
    | .error e => .error e
    | .ok (columns, s2) =>
      let pr := parseRows fid columns.toNat s2
      let rows := pr.1
      match parseTypes columns.toNat pr.2 with
      | .error e => .error e
      | .ok (dtypes, s4) =>
        let ph := parseHeaders columns.toNat s4
        let headers := ph.1
        let W : Int := if rows.isEmpty then 0 else maxInt rows
        if W < 0 then .error (.valueError "negative dimensions are not allowed")
        else
          let pd := decodeCols c W.toNat (rows.zip dtypes) ph.2
          .ok { fid := fid, columns := columns, rows := rows,
                headers := headers, dtypes := dtypes,
                data := pd.1 ++ List.replicate (columns.toNat - (rows.zip dtypes).length)
                  (List.replicate W.toNat c.nan) }

/-- Encode then decode: `QDAfile(...)._tofile` followed by `_fromfile` on
the produced bytes. -/
def recode {V : Type} (c : Codec V) (t : Table V) : Except Err (Table V) :=
  match tofile c t with
  | .error e => .error e
  | .ok bs => fromfile c bs

/-! ## Construction from data (`QDAfile._fromdata`)

The data argument is a Python scalar/list structure that `numpy.asarray`
turns into an array; the model covers the 1-D and 2-D list inputs
(`numpy.asarray` rejects ragged nested lists, modelled by an explicit
rectangularity check; a nested list input is never empty at the outer
level in numpy's 2-D sense -- a plain `[]` is 1-D).  `numpy.atleast_2d`
wraps a 1-D array as a single row, so `QDAfile()` (which calls
`_fromdata([])`) gets shape `(1, 0)`.  The `'>f8'` value conversion is the
identity on the abstract cell type.  Provided `rows` entries are modelled
as integers (`int(...)` conversion of strings is outside the model);
provided `dtypes` range over the four `Dtype` values, of which exactly the
three `DTYPE_INT` keys are accepted. -/

/-- A 1-D or 2-D array-like input to `QDAfile._fromdata`. -/
inductive ArrLike (V : Type)
  | oneD (l : List V)
  | twoD (m : List (List V))

/-- `numpy.atleast_2d(numpy.asarray(arg))` on the list inputs. -/
def atleast_2d {V : Type} : ArrLike V → List (List V)
  | .oneD l => [l]
  | .twoD m => m

/-- The `rows` argument handling of `_fromdata`: `None` and the empty
sequence are falsy and select the default `[data.shape[1]] * columns`; a
provided sequence is read at indices `0..columns-1` (an `IndexError` there
becomes `ValueError('invalid rows argument')`). -/
def mkRows (columns width : Nat) (rowsArg : Option (List Int)) : Except Err (List Int) :=
  let rowsProvided : Bool := match rowsArg with
    | some rs => !rs.isEmpty
    | none => false
  if rowsProvided then
    let rs := rowsArg.getD []
    if columns ≤ rs.length then .ok (rs.take columns)
    else .error (.valueError "invalid rows argument")
  else .ok (List.replicate columns (width : Int))

/-- The `headers` argument handling of `_fromdata`: default
`unique_headers(columns)`; a provided sequence is read at indices
`0..columns-1`, each header silently truncated to its first 40
characters (`headers[i][0:40]`). -/
def mkHeaders (columns : Nat) (headersArg : Option (List (List Nat))) :
    Except Err (List (List Nat)) :=
  let headersProvided : Bool := match headersArg with
    | some hs => !hs.isEmpty
    | none => false
  if headersProvided then
    let hs := headersArg.getD []
    if columns ≤ hs.length then .ok ((hs.take columns).map (fun h => h.take 40))
    else .error (.valueError "invalid headers argument")
  else unique_headers columns

/-- The `dtypes` argument handling of `_fromdata`: default `['>f8'] *
columns`; a provided sequence is validated through `DTYPE_INT` at indices
`0..columns-1` and then kept whole (`list(dtypes)`), its length checked
later. -/
def mkDtypes (columns : Nat) (dtypesArg : Option (List Dtype)) : Except Err (List Dtype) :=
  let dtypesProvided : Bool := match dtypesArg with
    | some ds => !ds.isEmpty
    | none => false
  if dtypesProvided then
    let ds := dtypesArg.getD []
    if columns ≤ ds.length ∧ (ds.take columns).all (fun d => (DTYPE_INT d).isSome) then .ok ds
    else .error (.valueError "invalid dtypes argument")
  else .ok (List.replicate columns .f8)

/-- `QDAfile._fromdata(arg, name=..., headers=None, rows=None, dtypes=None)`
(the `name` attribute is display-only and omitted). -/
def fromdata {V : Type} (arg : ArrLike V) (headersArg : Option (List (List Nat)))
    (rowsArg : Option (List Int)) (dtypesArg : Option (List Dtype)) :
    Except Err (Table V) :=
  let data := atleast_2d arg
  let columns := data.length
  let width := (data.headD []).length
  if ¬ data.all (fun row => row.length = width) then
    .error (.valueError "setting an array element with a sequence")
  else if 1000 < columns then .error (.valueError "dimensions of data array are too large")
  else
    match mkRows columns width rowsArg with
    | .error e => .error e
    | .ok rows =>
      if rows.isEmpty then .error (.valueError "max() arg is an empty sequence")
      else if 32768 < maxInt rows then
        .error (.valueError "data array dimensions are too large")
      else
        match mkHeaders columns headersArg with
        | .error e => .error e
        | .ok headers =>
          match mkDtypes columns dtypesArg with
          | .error e => .error e
          | .ok dtypes =>
            if dtypes.length ≠ columns ∨ headers.length ≠ columns ∨ rows.length ≠ columns
            then .error (.valueError "invalid argument(s)")
            else
              .ok { fid := 12, columns := (columns : Int), rows := rows,
                    headers := headers, dtypes := dtypes, data := data }

/-- `QDAfile()` with no argument: `__init__` dispatches `None` to
`_fromdata([])`. -/
def fromNone (V : Type) : Except Err (Table V) :=
  fromdata (ArrLike.oneD ([] : List V)) none none none

/-! ## Decoder correctness on well-formed streams -/

theorem elemsize_pos (d : Dtype) : 0 < elemsize d := by
  cases d <;> simp [elemsize]

theorem readChunks_exact (k : Nat) (chunks : List (List Nat)) :
    ∀ rest : List Nat, 0 < k → (∀ ch ∈ chunks, ch.length = k) →
      readChunks k chunks.length (chunks.flatten ++ rest) = (chunks, rest) := by
  induction chunks with
  | nil => intro rest _ _; simp [readChunks]
  | cons ch chs ih =>
    intro rest hk hlen
    have hch : ch.length = k := hlen ch (by simp)
    have hshape : (ch :: chs).flatten ++ rest = ch ++ (chs.flatten ++ rest) := by
      simp [List.append_assoc]
    rw [List.length_cons, hshape]
    simp only [readChunks]
    rw [if_pos (by simp [hch]), List.take_left' hch, List.drop_left' hch,
      ih rest hk (fun c hc => hlen c (by simp [hc]))]

theorem readElems_exact (k : Nat) (r : Int) (chunks : List (List Nat)) (rest : List Nat)
    (hk : 0 < k) (hr : 0 ≤ r) (hcl : chunks.length = r.toNat)
    (hck : ∀ ch ∈ chunks, ch.length = k) :
    readElems k r (chunks.flatten ++ rest) = (chunks, rest) := by
  rw [readElems, if_pos hr, ← hcl, readChunks_exact k chunks rest hk hck]

theorem pySliceLen_toNat (W : Nat) (r : Int) (hr : 0 ≤ r) (hrW : r.toNat ≤ W) :
    pySliceLen W r = r.toNat := by
  simp only [pySliceLen, if_pos hr]
  omega

/-- What `decodeCol` does to one well-formed column: it consumes exactly the
`rows[i]*elemsize` payload bytes and the `136 + 2*rows[i]` trailer bytes,
stores the decoded elements (or leaves the row NaN for `'S40'`), and leaves
the rest of the stream untouched. -/
theorem decodeCol_exact {V : Type} (c : Codec V) (W : Nat) (r : Int) (d : Dtype)
    (chunks : List (List Nat)) (trailer rest : List Nat)
    (hr0 : 0 ≤ r) (hrW : r.toNat ≤ W)
    (hcl : chunks.length = r.toNat) (hck : ∀ ch ∈ chunks, ch.length = elemsize d)
    (htr : trailer.length = 136 + 2 * r.toNat) :
    decodeCol c W r d (chunks.flatten ++ (trailer ++ rest)) =
      ((if d = .s40 then List.replicate W c.nan
        else chunks.map (c.de d) ++ List.replicate (W - r.toNat) c.nan), rest) := by
  unfold decodeCol
  rw [readElems_exact (elemsize d) r chunks (trailer ++ rest) (elemsize_pos d) hr0 hcl hck]
  simp only
  rw [pySliceLen_toNat W r hr0 hrW]
  have hskip : (0 : Int) ≤ 136 + 2 * r := by omega
  rw [if_pos hskip]
  have htoNat : (136 + 2 * r).toNat = 136 + 2 * r.toNat := by omega
  rw [htoNat, ← htr, List.drop_left]
  by_cases hd : d = .s40
  · rw [if_neg (by simp [hd]), if_neg (by simp [hd]), if_pos hd]
  · rw [if_pos ⟨hd, hcl.trans rfl⟩, if_neg hd]

/-! The per-column wire descriptor: row count, raw type tag, header, the
payload element blocks and the trailer bytes as they sit in the stream. -/

structure ColDesc where
  row : Int
  tag : Int
  header : List Nat
  payload : List (List Nat)
  trailer : List Nat
deriving DecidableEq, Repr

/-- The dtype a wire descriptor declares. -/
def ColDesc.dtype (cd : ColDesc) : Dtype := (DTYPE_STR cd.tag).getD .f8

/-- Well-formedness of one wire column: a row count in range, a known type
tag, a header that fits its 40-byte slot with no embedded NUL, exactly
`row` payload blocks of the declared element size, and a trailer of exactly
`136 + 2*row` bytes. -/
abbrev ColDesc.WF (cd : ColDesc) : Prop :=
  0 ≤ cd.row ∧ cd.row ≤ 32768 ∧ (DTYPE_STR cd.tag).isSome = true ∧
  cd.header.length ≤ 40 ∧ (∀ b ∈ cd.header, b ≠ 0) ∧
  cd.payload.length = cd.row.toNat ∧ (∀ ch ∈ cd.payload, ch.length = elemsize cd.dtype) ∧
  cd.trailer.length = 136 + 2 * cd.row.toNat

/-- The decoded data row of one wire column at buffer width `W`. -/
def wireRow {V : Type} (c : Codec V) (W : Nat) (cd : ColDesc) : List V :=
  if cd.dtype = .s40 then List.replicate W c.nan
  else cd.payload.map (c.de cd.dtype) ++ List.replicate (W - cd.row.toNat) c.nan

theorem decodeCols_exact {V : Type} (c : Codec V) (W : Nat) (descs : List ColDesc) :
    ∀ rest : List Nat, (∀ cd ∈ descs, cd.WF) → (∀ cd ∈ descs, cd.row.toNat ≤ W) →
      decodeCols c W (descs.map (fun cd => (cd.row, cd.dtype)))
          (descs.flatMap (fun cd => cd.payload.flatten ++ cd.trailer) ++ rest)
        = (descs.map (wireRow c W), rest) := by
  induction descs with
  | nil => intro rest _ _; simp [decodeCols]
  | cons cd descs ih =>
    intro rest hwf hW
    obtain ⟨h0, h1, h2, h3, h4, h5, h6, h7⟩ := hwf cd (by simp)
    have hshape : (cd :: descs).flatMap (fun cd => cd.payload.flatten ++ cd.trailer) ++ rest
        = cd.payload.flatten ++ (cd.trailer
          ++ (descs.flatMap (fun cd => cd.payload.flatten ++ cd.trailer) ++ rest)) := by
      simp [List.append_assoc]
    rw [List.map_cons, hshape]
    simp only [decodeCols]
    rw [decodeCol_exact c W cd.row cd.dtype cd.payload cd.trailer _
      h0 (hW cd (by simp)) h5 h6 h7]
    simp only
    rw [ih rest (fun x hx => hwf x (by simp [hx])) (fun x hx => hW x (by simp [hx]))]
    rfl

theorem parseFid_wire (x : List Nat) : parseFid ([0, 12] ++ x) = .ok (12, x) := rfl

theorem parseColumns_wire (v : Int) (pad x : List Nat) (h0 : 0 ≤ v) (h1 : v ≤ 1000)
    (hpad : pad.length = 508) :
    parseColumns (pack_i16be v ++ (pad ++ x)) = .ok (v, x) := by
  obtain ⟨a, b, hab⟩ : ∃ a b, pack_i16be v = [a, b] := ⟨_, _, rfl⟩
  have hread : read_i16be a b = v := by
    have := read_pack_i16 v (by omega) (by omega)
    rwa [hab] at this
  rw [hab]
  unfold parseColumns
  rw [if_neg (by simp)]
  simp only [List.cons_append, List.getD_cons_zero, List.getD_cons_succ, hread]
  rw [if_neg (by omega), List.drop_succ_cons, List.drop_succ_cons, List.drop_zero,
    List.nil_append, List.drop_left' hpad]

theorem dtypesOf_ok (tags : List Int) (h : ∀ t ∈ tags, (DTYPE_STR t).isSome = true) :
    dtypesOf tags = .ok (tags.map (fun t => (DTYPE_STR t).getD .f8)) := by
  induction tags with
  | nil => rfl
  | cons t rest ih =>
    obtain ⟨d, hd⟩ := Option.isSome_iff_exists.mp (h t (by simp))
    simp only [dtypesOf, hd]
    rw [ih (fun t2 ht2 => h t2 (by simp [ht2]))]
    simp [Except.map, List.map_cons, hd]

theorem DTYPE_STR_isSome_cases (t : Int) (h : (DTYPE_STR t).isSome = true) :
    t = 0 ∨ t = 1 ∨ t = 3 ∨ t = 4 := by
  unfold DTYPE_STR at h
  split_ifs at h with h1 h2 h3 h4
  · exact Or.inl h1
  · exact Or.inr (Or.inr (Or.inl h2))
  · exact Or.inr (Or.inr (Or.inr h3))
  · exact Or.inr (Or.inl h4)
  · simp at h

theorem maxInt_cons (a : Int) (l : List Int) (h : l ≠ []) :
    maxInt (a :: l) = max a (maxInt l) := by
  cases l with
  | nil => exact absurd rfl h
  | cons b t => rfl

theorem le_maxInt (l : List Int) : ∀ x ∈ l, x ≤ maxInt l := by
  induction l with
  | nil => simp
  | cons a l ih =>
    intro x hx
    cases l with
    | nil =>
      rcases List.mem_singleton.mp hx with rfl
      exact le_refl x
    | cons b t =>
      rw [maxInt_cons a (b :: t) (by simp)]
      rcases List.mem_cons.mp hx with rfl | hx2
      · exact le_max_left _ _
      · exact le_trans (ih x hx2) (le_max_right _ _)

theorem maxInt_le (l : List Int) (B : Int) (hne : l ≠ []) (h : ∀ x ∈ l, x ≤ B) :
    maxInt l ≤ B := by
  induction l with
  | nil => exact absurd rfl hne
  | cons a l ih =>
    cases l with
    | nil => exact h a (by simp)
    | cons b t =>
      rw [maxInt_cons a (b :: t) (by simp)]
      exact max_le (h a (by simp)) (ih (by simp) (fun x hx => h x (by simp [hx])))

theorem headerField_length (n : Nat) (h : List Nat) (hh : h.length ≤ n) :
    (headerField n h).length = n := by
  simp only [headerField, List.length_append, List.length_replicate]
  omega

theorem takeWhile_append_replicate (l : List Nat) (k : Nat) (h : ∀ b ∈ l, b ≠ 0) :
    (l ++ List.replicate k 0).takeWhile (· ≠ 0) = l := by
  induction l with
  | nil =>
    cases k with
    | zero => rfl
    | succ m => simp [List.replicate_succ, List.takeWhile_cons]
  | cons a l ih =>
    have ha : a ≠ 0 := h a (by simp)
    simp only [List.cons_append, List.takeWhile_cons]
    rw [if_pos (by simpa using ha), ih (fun b hb => h b (by simp [hb]))]

theorem headerField_takeWhile (h : List Nat) (hnz : ∀ b ∈ h, b ≠ 0) :
    (headerField 40 h).takeWhile (· ≠ 0) = h :=
  takeWhile_append_replicate h (40 - h.length) hnz

theorem parseRows_wire (rows : List Int) (x : List Nat)
    (hr : ∀ r ∈ rows, 0 ≤ r ∧ r ≤ 32768) :
    parseRows 12 rows.length (rows.flatMap pack_i32be ++ x) = (rows, x) := by
  unfold parseRows
  have hif4 : (if (12 : Nat) = 12 then 4 else 2) = 4 := rfl
  have hifr : (if (12 : Nat) = 12 then read_i32chunk else read_i16chunk) = read_i32chunk := rfl
  rw [hif4, hifr]
  have hflat : rows.flatMap pack_i32be = (rows.map pack_i32be).flatten :=
    List.flatMap_def rows pack_i32be
  have hlen : (rows.map pack_i32be).length = rows.length := List.length_map rows pack_i32be
  rw [hflat, ← hlen,
    readChunks_exact 4 (rows.map pack_i32be) x (by omega)
      (fun ch hch => by
        obtain ⟨r2, _, rfl⟩ := List.mem_map.mp hch
        exact pack_i32be_length r2)]
  simp only [List.map_map]
  have hmap : List.map (read_i32chunk ∘ pack_i32be) rows = rows := by
    calc List.map (read_i32chunk ∘ pack_i32be) rows
        = rows.map (fun r => read_i32chunk (pack_i32be r)) := rfl
      _ = rows.map id := List.map_congr_left (fun r hmem =>
            read_pack_i32 r (by have := (hr r hmem).1; omega) (by have := (hr r hmem).2; omega))
      _ = rows := List.map_id rows
  rw [hmap]

theorem read_pack_tag (t : Int) (h : (DTYPE_STR t).isSome = true) :
    read_i16chunk (pack_i16be t) = t := by
  rcases DTYPE_STR_isSome_cases t h with rfl | rfl | rfl | rfl <;> decide

theorem parseTypes_wire (tags : List Int) (x : List Nat)
    (ht : ∀ t ∈ tags, (DTYPE_STR t).isSome = true) :
    parseTypes tags.length (tags.flatMap pack_i16be ++ x)
      = .ok (tags.map (fun t => (DTYPE_STR t).getD .f8), x) := by
  unfold parseTypes
  have hflat : tags.flatMap pack_i16be = (tags.map pack_i16be).flatten :=
    List.flatMap_def tags pack_i16be
  have hlen : (tags.map pack_i16be).length = tags.length := List.length_map tags pack_i16be
  rw [hflat, ← hlen,
    readChunks_exact 2 (tags.map pack_i16be) x (by omega)
      (fun ch hch => by
        obtain ⟨t2, _, rfl⟩ := List.mem_map.mp hch
        exact pack_i16be_length t2)]
  simp only [List.map_map]
  have hrt : List.map (read_i16chunk ∘ pack_i16be) tags = tags := by
    calc List.map (read_i16chunk ∘ pack_i16be) tags
        = tags.map (fun t => read_i16chunk (pack_i16be t)) := rfl
      _ = tags.map id := List.map_congr_left (fun t hmem => read_pack_tag t (ht t hmem))
      _ = tags := List.map_id tags
  rw [hrt, dtypesOf_ok tags ht]

theorem parseHeaders_wire (hs : List (List Nat)) (x : List Nat)
    (hh : ∀ h ∈ hs, h.length ≤ 40 ∧ ∀ b ∈ h, b ≠ 0) :
    parseHeaders hs.length (hs.flatMap (headerField 40) ++ x) = (hs, x) := by
  unfold parseHeaders
  have hflat : hs.flatMap (headerField 40) = (hs.map (headerField 40)).flatten :=
    List.flatMap_def hs (headerField 40)
  have hlen : (hs.map (headerField 40)).length = hs.length := List.length_map hs (headerField 40)
  rw [hflat, ← hlen,
    readChunks_exact 40 (hs.map (headerField 40)) x (by omega)
      (fun ch hch => by
        obtain ⟨h2, hmem, rfl⟩ := List.mem_map.mp hch
        exact headerField_length 40 h2 (hh h2 hmem).1)]
  simp only [List.map_map]
  have hmap : List.map (List.takeWhile (· ≠ 0) ∘ headerField 40) hs = hs := by
    calc List.map (List.takeWhile (· ≠ 0) ∘ headerField 40) hs
        = hs.map (fun h => (headerField 40 h).takeWhile (· ≠ 0)) := rfl
      _ = hs.map id := List.map_congr_left (fun h hmem => headerField_takeWhile h (hh h hmem).2)
      _ = hs := List.map_id hs
  rw [hmap]

/-- A well-formed modern (id 12) wire stream: identifier, column count,
508 reserved bytes, the row-count/type-tag/header sections, then one
payload+trailer block per column, followed by arbitrary trailing bytes. -/
def wireStream (pad : List Nat) (descs : List ColDesc) (rest : List Nat) : List Nat :=
  [0, 12] ++ (pack_i16be (descs.length : Int) ++ (pad
    ++ ((descs.map ColDesc.row).flatMap pack_i32be
      ++ ((descs.map ColDesc.tag).flatMap pack_i16be
        ++ ((descs.map ColDesc.header).flatMap (headerField 40)
          ++ (descs.flatMap (fun cd => cd.payload.flatten ++ cd.trailer) ++ rest))))))

/-- The data-buffer width `max(rows)` of a wire stream (0 for no columns). -/
def wireW (descs : List ColDesc) : Nat :=
  (if (descs.map ColDesc.row).isEmpty then (0 : Int)
   else maxInt (descs.map ColDesc.row)).toNat

/-- Decoding a well-formed wire stream yields exactly the declared table:
the declared column count, row counts, headers and dtypes, and per-column
data rows decoded from the payload blocks (NaN-filled for `'S40'`
columns), with the cursor having advanced over every payload and trailer. -/
theorem fromfile_wire {V : Type} (c : Codec V) (pad : List Nat) (descs : List ColDesc)
    (rest : List Nat) (hpad : pad.length = 508) (hn : descs.length ≤ 1000)
    (hwf : ∀ cd ∈ descs, cd.WF) :
    fromfile c (wireStream pad descs rest)
      = .ok { fid := 12, columns := (descs.length : Int),
              rows := descs.map ColDesc.row,
              headers := descs.map ColDesc.header,
              dtypes := descs.map ColDesc.dtype,
              data := descs.map (wireRow c (wireW descs)) } := by
  unfold fromfile wireStream
  rw [parseFid_wire]
  simp only
  rw [parseColumns_wire (descs.length : Int) pad _ (by positivity) (by exact_mod_cast hn) hpad]
  simp only [Int.toNat_natCast]
  rw [← List.length_map descs ColDesc.row]
  rw [parseRows_wire (descs.map ColDesc.row) _
    (fun r hr => by
      obtain ⟨cd, hcd, rfl⟩ := List.mem_map.mp hr
      exact ⟨(hwf cd hcd).1, (hwf cd hcd).2.1⟩)]
  simp only [List.length_map]
  rw [← List.length_map descs ColDesc.tag]
  rw [parseTypes_wire (descs.map ColDesc.tag) _
    (fun t ht => by
      obtain ⟨cd, hcd, rfl⟩ := List.mem_map.mp ht
      exact (hwf cd hcd).2.2.1)]
  simp only [List.length_map, List.map_map]
  rw [← List.length_map descs ColDesc.header]
  rw [parseHeaders_wire (descs.map ColDesc.header) _
    (fun h hmem => by
      obtain ⟨cd, hcd, rfl⟩ := List.mem_map.mp hmem
      exact ⟨(hwf cd hcd).2.2.2.1, (hwf cd hcd).2.2.2.2.1⟩)]
  simp only [List.length_map]
  have hWnn : ¬ (if (descs.map ColDesc.row).isEmpty then (0 : Int)
      else maxInt (descs.map ColDesc.row)) < 0 := by
    cases descs with
    | nil => simp
    | cons cd ds =>
      rw [if_neg (by simp)]
      have h1 : cd.row ∈ (cd :: ds).map ColDesc.row := by simp
      have h2 := le_maxInt ((cd :: ds).map ColDesc.row) cd.row h1
      have h3 := (hwf cd (by simp)).1
      omega
  rw [if_neg hWnn]
  have hzip : (descs.map ColDesc.row).zip
      (List.map ((fun t => (DTYPE_STR t).getD Dtype.f8) ∘ ColDesc.tag) descs)
      = descs.map (fun cd => (cd.row, cd.dtype)) := by
    rw [show List.map ((fun t => (DTYPE_STR t).getD Dtype.f8) ∘ ColDesc.tag) descs
      = descs.map ColDesc.dtype from rfl]
    exact List.zip_map' ColDesc.row ColDesc.dtype descs
  rw [hzip]
  have hWeq : (if (descs.map ColDesc.row).isEmpty then (0 : Int)
      else maxInt (descs.map ColDesc.row)).toNat = wireW descs := rfl
  rw [hWeq]
  rw [decodeCols_exact c (wireW descs) descs rest hwf
    (fun cd hcd => by
      have h1 : cd.row ∈ descs.map ColDesc.row := List.mem_map_of_mem ColDesc.row hcd
      have h2 := le_maxInt (descs.map ColDesc.row) cd.row h1
      have h3 : ¬ (descs.map ColDesc.row).isEmpty := by
        cases descs
        · simp at hcd
        · simp
      simp only [wireW, if_neg h3]
      omega)]
  simp only [List.length_map, Nat.sub_self, List.replicate_zero, List.append_nil]
  rfl

/-! ## Encoder output shape

For a structurally valid table, `_tofile` produces exactly a well-formed
wire stream (`wireStream`), whose per-column descriptors carry the encoded
payload/trailer bytes. -/

/-- The wire tag the encoder writes for a (numeric) dtype. -/
def tagOf (d : Dtype) : Int := (DTYPE_INT d).getD 0

theorem DTYPE_STR_tagOf (d : Dtype) (hd : d ≠ .s40) : DTYPE_STR (tagOf d) = some d := by
  cases d
  · rfl
  · rfl
  · rfl
  · exact absurd rfl hd

theorem markerBytes_length (r : Int) : (markerBytes r).length = 2 * r.toNat := by
  simp only [markerBytes, List.length_flatten, List.map_replicate, List.length_cons,
    List.length_nil, List.sum_replicate, smul_eq_mul]
  omega

theorem colTag_length : colTag.length = 8 := rfl

theorem colTrailer_length (r : Int) (h : List Nat) (hh : h.length ≤ 128) :
    (colTrailer r h).length = 136 + 2 * r.toNat := by
  simp only [colTrailer, List.length_append, markerBytes_length, colTag_length,
    headerField_length 128 h hh]
  omega

/-- The wire descriptors the encoder produces, one per column, walking the
four per-column lists in lockstep. -/
def descs4 {V : Type} (c : Codec V) :
    List Int → List Dtype → List (List Nat) → List (List V) → List ColDesc
  | r :: rs, d :: ds, h :: hs, row :: rows =>
    { row := r, tag := tagOf d, header := h,
      payload := (pySlice row r).map (c.ser d),
      trailer := colTrailer r h } :: descs4 c rs ds hs rows
  | _, _, _, _ => []

theorem dtypeIntsE_ok (ds : List Dtype) (h : ∀ d ∈ ds, d ≠ .s40) :
    dtypeIntsE ds = .ok (ds.map tagOf) := by
  induction ds with
  | nil => rfl
  | cons d rest ih =>
    have hd : d ≠ .s40 := h d (by simp)
    have hsome : DTYPE_INT d = some (tagOf d) := by
      cases d
      · rfl
      · rfl
      · rfl
      · exact absurd rfl hd
    simp only [dtypeIntsE, hsome]
    rw [ih (fun d2 hd2 => h d2 (by simp [hd2]))]
    rfl

theorem descs4_row {V : Type} (c : Codec V) :
    ∀ (rs : List Int) (ds : List Dtype) (hs : List (List Nat)) (dat : List (List V)),
      ds.length = rs.length → hs.length = rs.length → dat.length = rs.length →
      (descs4 c rs ds hs dat).map ColDesc.row = rs := by
  intro rs
  induction rs with
  | nil =>
    intro ds hs dat h1 h2 h3
    cases ds <;> cases hs <;> cases dat <;> simp_all [descs4]
  | cons r rs ih =>
    intro ds hs dat h1 h2 h3
    cases ds with
    | nil => simp at h1
    | cons d ds =>
      cases hs with
      | nil => simp at h2
      | cons h hs =>
        cases dat with
        | nil => simp at h3
        | cons row dat =>
          simp only [descs4, List.map_cons]
          rw [ih ds hs dat (by simpa using h1) (by simpa using h2) (by simpa using h3)]

theorem descs4_tag {V : Type} (c : Codec V) :
    ∀ (rs : List Int) (ds : List Dtype) (hs : List (List Nat)) (dat : List (List V)),
      ds.length = rs.length → hs.length = rs.length → dat.length = rs.length →
      (descs4 c rs ds hs dat).map ColDesc.tag = ds.map tagOf := by
  intro rs
  induction rs with
  | nil =>
    intro ds hs dat h1 h2 h3
    cases ds <;> cases hs <;> cases dat <;> simp_all [descs4]
  | cons r rs ih =>
    intro ds hs dat h1 h2 h3
    cases ds with
    | nil => simp at h1
    | cons d ds =>
      cases hs with
      | nil => simp at h2
      | cons h hs =>
        cases dat with
        | nil => simp at h3
        | cons row dat =>
          simp only [descs4, List.map_cons]
          rw [ih ds hs dat (by simpa using h1) (by simpa using h2) (by simpa using h3)]

theorem descs4_header {V : Type} (c : Codec V) :
    ∀ (rs : List Int) (ds : List Dtype) (hs : List (List Nat)) (dat : List (List V)),
      ds.length = rs.length → hs.length = rs.length → dat.length = rs.length →
      (descs4 c rs ds hs dat).map ColDesc.header = hs := by
  intro rs
  induction rs with
  | nil =>
    intro ds hs dat h1 h2 h3
    cases ds <;> cases hs <;> cases dat <;> simp_all [descs4]
  | cons r rs ih =>
    intro ds hs dat h1 h2 h3
    cases ds with
    | nil => simp at h1
    | cons d ds =>
      cases hs with
      | nil => simp at h2
      | cons h hs =>
        cases dat with
        | nil => simp at h3
        | cons row dat =>
          simp only [descs4, List.map_cons]
          rw [ih ds hs dat (by simpa using h1) (by simpa using h2) (by simpa using h3)]

theorem descs4_dtype {V : Type} (c : Codec V) :
    ∀ (rs : List Int) (ds : List Dtype) (hs : List (List Nat)) (dat : List (List V)),
      ds.length = rs.length → hs.length = rs.length → dat.length = rs.length →
      (∀ d ∈ ds, d ≠ .s40) →
      (descs4 c rs ds hs dat).map ColDesc.dtype = ds := by
  intro rs
  induction rs with
  | nil =>
    intro ds hs dat h1 h2 h3 _
    cases ds <;> cases hs <;> cases dat <;> simp_all [descs4]
  | cons r rs ih =>
    intro ds hs dat h1 h2 h3 hd
    cases ds with
    | nil => simp at h1
    | cons d ds =>
      cases hs with
      | nil => simp at h2
      | cons h hs =>
        cases dat with
        | nil => simp at h3
        | cons row dat =>
          simp only [descs4, List.map_cons]
          rw [ih ds hs dat (by simpa using h1) (by simpa using h2) (by simpa using h3)
            (fun x hx => hd x (by simp [hx]))]
          congr 1
          simp [ColDesc.dtype, DTYPE_STR_tagOf d (hd d (by simp))]

theorem descs4_length {V : Type} (c : Codec V)
    (rs : List Int) (ds : List Dtype) (hs : List (List Nat)) (dat : List (List V))
    (h1 : ds.length = rs.length) (h2 : hs.length = rs.length) (h3 : dat.length = rs.length) :
    (descs4 c rs ds hs dat).length = rs.length := by
  have := descs4_row c rs ds hs dat h1 h2 h3
  calc (descs4 c rs ds hs dat).length
      = ((descs4 c rs ds hs dat).map ColDesc.row).length :=
        (List.length_map (descs4 c rs ds hs dat) ColDesc.row).symm
    _ = rs.length := by rw [this]

theorem tofileCols_ok {V : Type} (c : Codec V) :
    ∀ (rs : List Int) (ds : List Dtype) (hs : List (List Nat)) (dat : List (List V)),
      ds.length = rs.length → hs.length = rs.length → dat.length = rs.length →
      tofileCols c (zipRDH rs ds hs) dat
        = .ok ((descs4 c rs ds hs dat).flatMap (fun cd => cd.payload.flatten ++ cd.trailer)) := by
  intro rs
  induction rs with
  | nil =>
    intro ds hs dat h1 h2 h3
    cases ds <;> cases hs <;> cases dat <;> simp_all [descs4, zipRDH, tofileCols]
  | cons r rs ih =>
    intro ds hs dat h1 h2 h3
    cases ds with
    | nil => simp at h1
    | cons d ds =>
      cases hs with
      | nil => simp at h2
      | cons h hs =>
        cases dat with
        | nil => simp at h3
        | cons row dat =>
          simp only [zipRDH, tofileCols, descs4]
          rw [ih ds hs dat (by simpa using h1) (by simpa using h2) (by simpa using h3)]
          simp only [Except.map, List.flatMap_cons]
          rw [colPayload, List.flatMap_def, List.append_assoc]

/-- The expected decoded data buffer after a round trip: per column the
slice `data[i, 0:rows[i]]` pushed through the precision
loss of the declared dtype, NaN-padded to the decoded buffer width `W = max(rows)`. -/
def rtData {V : Type} (c : Codec V) (W : Nat) :
    List Int → List Dtype → List (List V) → List (List V)
  | r :: rs, d :: ds, row :: dat =>
    ((pySlice row r).map (c.rt d) ++ List.replicate (W - r.toNat) c.nan)
      :: rtData c W rs ds dat
  | _, _, _ => []

theorem descs4_WF {V : Type} (c : Codec V)
    (hser : ∀ d v, (c.ser d v).length = elemsize d) :
    ∀ (rs : List Int) (ds : List Dtype) (hs : List (List Nat)) (dat : List (List V)),
      (∀ r ∈ rs, 0 ≤ r ∧ r ≤ 32768) → (∀ d ∈ ds, d ≠ .s40) →
      (∀ h ∈ hs, h.length ≤ 40 ∧ ∀ b ∈ h, b ≠ 0) →
      List.Forall₂ (fun (r : Int) (row : List V) => r.toNat ≤ row.length) rs dat →
      ∀ cd ∈ descs4 c rs ds hs dat, cd.WF := by
  intro rs
  induction rs with
  | nil => intro ds hs dat _ _ _ _ cd hcd; cases ds <;> cases hs <;> cases dat <;> simp_all [descs4]
  | cons r rs ih =>
    intro ds hs dat hr hd hh hf cd hcd
    cases ds with
    | nil => simp [descs4] at hcd
    | cons d ds =>
      cases hs with
      | nil => simp [descs4] at hcd
      | cons h hs =>
        cases dat with
        | nil => exact absurd (List.forall₂_cons_left_iff.mp hf) (by simp)
        | cons row dat =>
          obtain ⟨hrw, hf2⟩ := List.forall₂_cons.mp hf
          rcases List.mem_cons.mp hcd with rfl | hcd2
          · have hdd : d ≠ .s40 := hd d (by simp)
            have hdt : ColDesc.dtype
                { row := r, tag := tagOf d, header := h,
                  payload := (pySlice row r).map (c.ser d), trailer := colTrailer r h } = d := by
              simp [ColDesc.dtype, DTYPE_STR_tagOf d hdd]
            refine ⟨(hr r (by simp)).1, (hr r (by simp)).2, ?_, (hh h (by simp)).1,
              (hh h (by simp)).2, ?_, ?_, ?_⟩
            · simp [DTYPE_STR_tagOf d hdd]
            · simp only [List.length_map, pySlice_length]
              exact pySliceLen_toNat row.length r (hr r (by simp)).1 hrw
            · intro ch hch
              obtain ⟨v, _, rfl⟩ := List.mem_map.mp hch
              rw [hdt]
              exact hser d v
            · exact colTrailer_length r h (by have := (hh h (by simp)).1; omega)
          · exact ih ds hs dat (fun x hx => hr x (by simp [hx]))
              (fun x hx => hd x (by simp [hx])) (fun x hx => hh x (by simp [hx])) hf2 cd hcd2

theorem descs4_wireRow {V : Type} (c : Codec V)
    (hde : ∀ d v, c.de d (c.ser d v) = c.rt d v) (W : Nat) :
    ∀ (rs : List Int) (ds : List Dtype) (hs : List (List Nat)) (dat : List (List V)),
      ds.length = rs.length → hs.length = rs.length → dat.length = rs.length →
      (∀ d ∈ ds, d ≠ .s40) →
      (descs4 c rs ds hs dat).map (wireRow c W) = rtData c W rs ds dat := by
  intro rs
  induction rs with
  | nil =>
    intro ds hs dat h1 h2 h3 _
    cases ds <;> cases hs <;> cases dat <;> simp_all [descs4, rtData]
  | cons r rs ih =>
    intro ds hs dat h1 h2 h3 hd
    cases ds with
    | nil => simp at h1
    | cons d ds =>
      cases hs with
      | nil => simp at h2
      | cons h hs =>
        cases dat with
        | nil => simp at h3
        | cons row dat =>
          have hdd : d ≠ .s40 := hd d (by simp)
          simp only [descs4, rtData, List.map_cons]
          rw [ih ds hs dat (by simpa using h1) (by simpa using h2) (by simpa using h3)
            (fun x hx => hd x (by simp [hx]))]
          have hdt : ColDesc.dtype
              { row := r, tag := tagOf d, header := h,
                payload := (pySlice row r).map (c.ser d), trailer := colTrailer r h } = d := by
            simp [ColDesc.dtype, DTYPE_STR_tagOf d hdd]
          congr 1
          rw [wireRow, hdt, if_neg hdd]
          simp only [List.map_map]
          congr 1
          calc (pySlice row r).map (c.de d ∘ c.ser d)
              = (pySlice row r).map (fun v => c.de d (c.ser d v)) := rfl
            _ = (pySlice row r).map (c.rt d) := List.map_congr_left (fun v _ => hde d v)

/-- For a structurally valid table with numeric dtypes, `_tofile` succeeds
and emits exactly the well-formed wire stream described by `descs4`. -/
theorem tofile_wire {V : Type} (c : Codec V) (t : Table V)
    (hcol : t.columns = (t.rows.length : Int))
    (h1 : t.dtypes.length = t.rows.length) (h2 : t.headers.length = t.rows.length)
    (h3 : t.data.length = t.rows.length)
    (hdt : ∀ d ∈ t.dtypes, d ≠ .s40) :
    tofile c t = .ok (wireStream (headerTag ++ List.replicate 500 0)
      (descs4 c t.rows t.dtypes t.headers t.data) []) := by
  unfold tofile
  rw [dtypeIntsE_ok t.dtypes hdt, tofileCols_ok c t.rows t.dtypes t.headers t.data h1 h2 h3]
  simp only
  congr 1
  unfold wireStream headerBlock
  rw [descs4_row c t.rows t.dtypes t.headers t.data h1 h2 h3,
    descs4_tag c t.rows t.dtypes t.headers t.data h1 h2 h3,
    descs4_header c t.rows t.dtypes t.headers t.data h1 h2 h3,
    descs4_length c t.rows t.dtypes t.headers t.data h1 h2 h3, hcol]
  rw [show (512 - 12 : Nat) = 500 from rfl]
  simp only [List.append_assoc, List.append_nil]

/-! ## Inversion of `_fromdata` success -/

theorem takeLabels_ok_inv (ls : List (List Nat)) (n : Nat) (out : List (List Nat))
    (h : takeLabels ls n = .ok out) : n < ls.length ∧ out = ls.take n := by
  by_cases hlt : n < ls.length
  · rw [takeLabels_ok ls n hlt] at h
    exact ⟨hlt, (Except.ok.inj h).symm⟩
  · rw [takeLabels_err ls n (by omega)] at h
    exact Except.noConfusion h

theorem mkRows_ok (columns width : Nat) (rA : Option (List Int)) (rows : List Int)
    (h : mkRows columns width rA = .ok rows) : rows.length = columns := by
  unfold mkRows at h
  split at h
  all_goals simp only [Option.getD_some] at h
  case h_2 =>
    simp only [Bool.false_eq_true, if_false] at h
    rw [← Except.ok.inj h, List.length_replicate]
  case h_1 =>
    split at h
    · split at h
      · rename_i hle
        rw [← Except.ok.inj h, List.length_take]
        omega
      · exact Except.noConfusion h
    · rw [← Except.ok.inj h, List.length_replicate]

theorem mkHeaders_ok (columns : Nat) (hA : Option (List (List Nat)))
    (headers : List (List Nat)) (h : mkHeaders columns hA = .ok headers) :
    headers.length = columns ∧ ∀ h2 ∈ headers, h2.length ≤ 40 := by
  have hdef : unique_headers columns = .ok headers →
      headers.length = columns ∧ ∀ h2 ∈ headers, h2.length ≤ 40 := by
    intro hu
    obtain ⟨hlt, rfl⟩ := takeLabels_ok_inv allLabels columns headers hu
    rw [allLabels_length] at hlt
    refine ⟨take_allLabels_length columns (by omega), ?_⟩
    intro h2 hh2
    have := (mem_take_allLabels columns h2 hh2).1
    omega
  unfold mkHeaders at h
  split at h
  all_goals simp only [Option.getD_some] at h
  case h_2 =>
    simp only [Bool.false_eq_true, if_false] at h
    exact hdef h
  case h_1 =>
    split at h
    · split at h
      · rename_i hle
        rw [← Except.ok.inj h]
        constructor
        · rw [List.length_map, List.length_take]
          omega
        · intro h2 hh2
          obtain ⟨h3, _, rfl⟩ := List.mem_map.mp hh2
          simp [List.length_take]
      · exact Except.noConfusion h
    · exact hdef h

theorem mkHeaders_default_nonul (columns : Nat) (headers : List (List Nat))
    (h : mkHeaders columns none = .ok headers) : ∀ h2 ∈ headers, ∀ b ∈ h2, b ≠ 0 := by
  unfold mkHeaders at h
  simp only [Bool.false_eq_true, if_false] at h
  obtain ⟨hlt, rfl⟩ := takeLabels_ok_inv allLabels columns headers h
  intro h2 hh2 b hb
  have hmem := (mem_take_allLabels columns h2 hh2).2 b hb
  exact chars_ne_zero b hmem

theorem mkDtypes_ok (columns : Nat) (dA : Option (List Dtype)) (dtypes : List Dtype)
    (h : mkDtypes columns dA = .ok dtypes) (hlen : dtypes.length = columns) :
    ∀ d ∈ dtypes, d ≠ .s40 := by
  unfold mkDtypes at h
  split at h
  all_goals simp only [Option.getD_some] at h
  case h_2 =>
    simp only [Bool.false_eq_true, if_false] at h
    rw [← Except.ok.inj h]
    intro d hd
    rw [List.eq_of_mem_replicate hd]
    intro hcon
    exact Dtype.noConfusion hcon
  case h_1 =>
    rename_i ds
    split at h
    · split at h
      · rename_i hcond
        rw [← Except.ok.inj h] at hlen ⊢
        intro d hd
        have htake : ds.take columns = ds := List.take_of_length_le (by omega)
        have hall := hcond.2
        rw [htake] at hall
        have := (List.all_eq_true.mp hall) d hd
        intro hs40
        rw [hs40] at this
        simp [DTYPE_INT] at this
      · exact Except.noConfusion h
    · rw [← Except.ok.inj h]
      intro d hd
      rw [List.eq_of_mem_replicate hd]
      intro hcon
      exact Dtype.noConfusion hcon

/-- Everything a successful `_fromdata` guarantees about the constructed
table: field values, the length equalities enforced by the final
validation, rectangular data, and the bounds the explicit checks impose.
Row counts are *not* guaranteed nonnegative (only `max(rows) ≤ 32768` is
checked), and provided headers may contain NUL bytes. -/
theorem fromdata_ok_inv {V : Type} (arr : ArrLike V) (hA : Option (List (List Nat)))
    (rA : Option (List Int)) (dA : Option (List Dtype)) (t : Table V)
    (h : fromdata arr hA rA dA = .ok t) :
    t.fid = 12 ∧
    t.data = atleast_2d arr ∧
    t.columns = ((atleast_2d arr).length : Int) ∧
    t.rows.length = (atleast_2d arr).length ∧
    t.headers.length = (atleast_2d arr).length ∧
    t.dtypes.length = (atleast_2d arr).length ∧
    (∀ row ∈ t.data, row.length = ((atleast_2d arr).headD []).length) ∧
    (atleast_2d arr).length ≤ 1000 ∧
    t.rows ≠ [] ∧ maxInt t.rows ≤ 32768 ∧
    (∀ h2 ∈ t.headers, h2.length ≤ 40) ∧
    (∀ d ∈ t.dtypes, d ≠ .s40) := by
  unfold fromdata at h
  simp only [] at h
  split at h
  · exact Except.noConfusion h
  split at h
  · exact Except.noConfusion h
  rename_i hrect hcols
  split at h
  · exact Except.noConfusion h
  rename_i rows hrows
  split at h
  · exact Except.noConfusion h
  rename_i hne
  split at h
  · exact Except.noConfusion h
  rename_i hmax
  split at h
  · exact Except.noConfusion h
  rename_i headers hheaders
  split at h
  · exact Except.noConfusion h
  rename_i dtypes hdtypes
  split at h
  · exact Except.noConfusion h
  rename_i hlens
  rw [← Except.ok.inj h]
  dsimp only
  push_neg at hlens
  obtain ⟨hl1, hl2, hl3⟩ := hlens
  refine ⟨rfl, rfl, rfl, hl3, hl2, hl1, ?_, by omega, ?_, by omega, ?_, ?_⟩
  · intro row hrow
    have := List.all_eq_true.mp (not_not.mp hrect) row hrow
    simpa using this
  · simpa using hne
  · exact (mkHeaders_ok _ hA headers hheaders).2
  · exact mkDtypes_ok _ dA dtypes hdtypes hl1

theorem forall₂_of_mem {α β : Type} (R : α → β → Prop) :
    ∀ (l1 : List α) (l2 : List β), l1.length = l2.length →
      (∀ a ∈ l1, ∀ b ∈ l2, R a b) → List.Forall₂ R l1 l2 := by
  intro l1
  induction l1 with
  | nil =>
    intro l2 hlen _
    cases l2
    · exact List.Forall₂.nil
    · simp at hlen
  | cons a l1 ih =>
    intro l2 hlen hmem
    cases l2 with
    | nil => simp at hlen
    | cons b l2 =>
      exact List.Forall₂.cons (hmem a (by simp) b (by simp))
        (ih l2 (by simpa using hlen) (fun x hx y hy => hmem x (by simp [hx]) y (by simp [hy])))

theorem headerPad_length : (headerTag ++ List.replicate 500 0).length = 508 := by
  rw [List.length_append, List.length_replicate]
  rfl

/-- C1 (amended): round trip for a table built by `_fromdata`.  With the
data-model invariants `0 ≤ rows[i] ≤ data width` and NUL-free headers
added to the hypotheses of the claim, decoding the encoded bytes reproduces
`columns`, `rows`, `headers` and `dtypes` exactly, and reproduces each
column slice `data[i, 0:rows[i]]` up to the precision loss of the
declared element type of the column, the cells beyond `rows[i]` being NaN
(`rtData`).  The per-element numpy conversion is any `Codec` whose
serializer emits `elemsize` bytes per element and whose
deserialize-after-serialize equals its round-trip function `rt`. -/
theorem fromdata_roundtrip {V : Type} (c : Codec V)
    (hser : ∀ d v, (c.ser d v).length = elemsize d)
    (hde : ∀ d v, c.de d (c.ser d v) = c.rt d v)
    (arr : ArrLike V) (hA : Option (List (List Nat))) (rA : Option (List Int))
    (dA : Option (List Dtype)) (t : Table V)
    (ht : fromdata arr hA rA dA = .ok t)
    (hpos : ∀ r ∈ t.rows, 0 ≤ r)
    (hwidth : ∀ r ∈ t.rows, ∀ row ∈ t.data, r ≤ (row.length : Int))
    (hnul : ∀ h ∈ t.headers, ∀ b ∈ h, b ≠ 0) :
    recode c t = .ok { fid := 12, columns := t.columns, rows := t.rows,
                       headers := t.headers, dtypes := t.dtypes,
                       data := rtData c (maxInt t.rows).toNat t.rows t.dtypes t.data } := by
  obtain ⟨hfid, hdata, hcols, hlr, hlh, hld, hrect, hc1000, hrne, hmax, hh40, hdt⟩ :=
    fromdata_ok_inv arr hA rA dA t ht
  have hcol2 : t.columns = (t.rows.length : Int) := by rw [hcols, hlr]
  have h1 : t.dtypes.length = t.rows.length := by rw [hld, hlr]
  have h2 : t.headers.length = t.rows.length := by rw [hlh, hlr]
  have h3 : t.data.length = t.rows.length := by rw [hdata, hlr]
  have hrowsWF : ∀ r ∈ t.rows, 0 ≤ r ∧ r ≤ 32768 :=
    fun r hr => ⟨hpos r hr, le_trans (le_maxInt t.rows r hr) hmax⟩
  have hhWF : ∀ h ∈ t.headers, h.length ≤ 40 ∧ ∀ b ∈ h, b ≠ 0 :=
    fun h hh => ⟨hh40 h hh, hnul h hh⟩
  have hf2 : List.Forall₂ (fun (r : Int) (row : List V) => r.toNat ≤ row.length)
      t.rows t.data :=
    forall₂_of_mem _ t.rows t.data h3.symm
      (fun r hr row hrow => by
        have := hwidth r hr row hrow
        omega)
  have hwf : ∀ cd ∈ descs4 c t.rows t.dtypes t.headers t.data, cd.WF :=
    descs4_WF c hser t.rows t.dtypes t.headers t.data hrowsWF hdt hhWF hf2
  have hdlen : (descs4 c t.rows t.dtypes t.headers t.data).length = t.rows.length :=
    descs4_length c t.rows t.dtypes t.headers t.data h1 h2 h3
  have hn : (descs4 c t.rows t.dtypes t.headers t.data).length ≤ 1000 := by
    rw [hdlen, hlr]
    exact hc1000
  unfold recode
  rw [tofile_wire c t hcol2 h1 h2 h3 hdt]
  simp only
  rw [fromfile_wire c (headerTag ++ List.replicate 500 0)
    (descs4 c t.rows t.dtypes t.headers t.data) [] headerPad_length hn hwf]
  have hrowmap := descs4_row c t.rows t.dtypes t.headers t.data h1 h2 h3
  have hie : t.rows.isEmpty = false := by
    cases htr : t.rows with
    | nil => exact absurd htr hrne
    | cons a l => rfl
  have hWeq : wireW (descs4 c t.rows t.dtypes t.headers t.data) = (maxInt t.rows).toNat := by
    rw [wireW, hrowmap, hie]
    simp only [Bool.false_eq_true, if_false]
  rw [descs4_wireRow c hde (wireW (descs4 c t.rows t.dtypes t.headers t.data))
    t.rows t.dtypes t.headers t.data h1 h2 h3 hdt]
  rw [hrowmap, descs4_header c t.rows t.dtypes t.headers t.data h1 h2 h3,
    descs4_dtype c t.rows t.dtypes t.headers t.data h1 h2 h3 hdt, hdlen, hWeq, ← hcol2]


/-- Two concrete wire columns (a string column and a float32 column) used
for executable witnesses. -/
def wDescs : List ColDesc :=
  [{ row := 1, tag := 1, header := [66], payload := [List.replicate 40 7],
     trailer := List.replicate 138 0 },
   { row := 1, tag := 0, header := [67], payload := [[9, 9, 9, 9]],
     trailer := List.replicate 138 5 }]

/-! ## Claim theorems -/

/-- C3: `unique_headers` is a deterministic pure function of `n` (it is a
Lean function of `n` alone) that enumerates the single letters A-Z, then
the two-letter labels AA-ZZ with the first letter as the outer loop, then
the three-letter labels likewise (the candidate list
`singles ++ doubles ++ triples`, of which it returns the first `n`);
in particular `unique_headers 0 = []`, `unique_headers 3 = [A, B, C]`, and
the 27th label of `unique_headers 27` is `AA`. -/
theorem C3_unique_headers :
    (∀ n : Nat, n < 18278 → unique_headers n = .ok (allLabels.take n)) ∧
    allLabels = singles ++ doubles ++ triples ∧
    unique_headers 0 = .ok [] ∧
    unique_headers 3 = .ok [latin1 "A", latin1 "B", latin1 "C"] ∧
    (unique_headers 27).toOption.map (fun l => l.getD 26 []) = some (latin1 "AA") :=
  ⟨unique_headers_ok, rfl, rfl, rfl, rfl⟩

/-- C3 witness: the general enumeration fact at `n = 100`. -/
theorem C3_witness : unique_headers 100 = .ok (allLabels.take 100) :=
  C3_unique_headers.1 100 (by omega)

/-- C4 counterexample: the claim says `unique_headers` succeeds for every
`0 ≤ n ≤ 18278`, but at exactly `n = 18278` the counter only reaches zero
after the last append, the three loops fall through, and the function
raises `NotImplementedError`. -/
theorem C4_counterexample : unique_headers 18278 = .error .notImplementedError :=
  unique_headers_err 18278 (le_refl 18278)

/-- C4 (amended): for `0 ≤ n ≤ 18277`, `unique_headers n` returns exactly
`n` distinct labels without error; it raises the internal-limit error
(`NotImplementedError`) exactly when `n ≥ 18278`. -/
theorem C4_amended : ∀ n : Nat,
    (n ≤ 18277 → unique_headers n = .ok (allLabels.take n) ∧
      (allLabels.take n).length = n ∧ (allLabels.take n).Nodup) ∧
    (18278 ≤ n → unique_headers n = .error .notImplementedError) :=
  fun n =>
    ⟨fun h => ⟨unique_headers_ok n (by omega), take_allLabels_length n (by omega),
      take_allLabels_nodup n⟩,
     fun h => unique_headers_err n h⟩

/-- C4 witness: both branches at concrete inputs. -/
theorem C4_witness :
    (unique_headers 5 = .ok (allLabels.take 5) ∧ (allLabels.take 5).length = 5 ∧
      (allLabels.take 5).Nodup) ∧
    unique_headers 20000 = .error .notImplementedError :=
  ⟨(C4_amended 5).1 (by omega), (C4_amended 20000).2 (by omega)⟩

/-- C9 counterexample: decoding the 4-byte stream `00 0C 00 05` (a valid
identifier and a declared column count of 5 followed by nothing) returns a
Table with `columns = 5` but empty `rows`/`headers`/`dtypes`, violating
the claimed invariant `len(rows) == len(headers) == len(dtypes) ==
columns`. -/
theorem C9_counterexample :
    (fromfile byteCodec [0, 12, 0, 5]).toOption.map
        (fun t => (t.rows.length, t.headers.length, t.dtypes.length, t.columns))
      = some (0, 0, 0, 5) := rfl

/-- C9 (amended): every Table constructed by `_fromdata` satisfies
`len(rows) == len(headers) == len(dtypes) == columns` and every row count
is at most 32768 (nonnegativity is not checked, and decoded Tables satisfy
the length equalities only when the stream is long enough). -/
theorem C9_amended {V : Type} (arr : ArrLike V) (hA : Option (List (List Nat)))
    (rA : Option (List Int)) (dA : Option (List Dtype)) (t : Table V)
    (ht : fromdata arr hA rA dA = .ok t) :
    t.rows.length = t.columns.toNat ∧ t.headers.length = t.columns.toNat ∧
    t.dtypes.length = t.columns.toNat ∧ ∀ r ∈ t.rows, r ≤ 32768 := by
  obtain ⟨hfid, hdata, hcols, hlr, hlh, hld, hrect, hc1000, hrne, hmax, hh40, hdt⟩ :=
    fromdata_ok_inv arr hA rA dA t ht
  have htoNat : t.columns.toNat = (atleast_2d arr).length := by rw [hcols]; omega
  exact ⟨by rw [htoNat, hlr], by rw [htoNat, hlh], by rw [htoNat, hld],
    fun r hr => le_trans (le_maxInt t.rows r hr) hmax⟩

/-- C9 witness: the amended invariants on a concretely constructed table. -/
theorem C9_witness :
    (fromdata (ArrLike.oneD [0, 1]) none none none
        = .ok { fid := 12, columns := 1, rows := [2], headers := [[65]],
                dtypes := [Dtype.f8], data := [[0, 1]] }) ∧
    ([(2 : Int)].length = (1 : Int).toNat ∧ [[(65 : Nat)]].length = (1 : Int).toNat ∧
      [Dtype.f8].length = (1 : Int).toNat ∧ ∀ r ∈ [(2 : Int)], r ≤ 32768) :=
  ⟨rfl, C9_amended (ArrLike.oneD [0, 1]) none none none _ rfl⟩

/-- C10: `QDAfile()` (no data) does not yield a zero-column table: the
input is promoted to shape `(1, 0)`, so `columns = 1`, `rows = [0]` and
the single default header is `A`; more generally a 1-D input of `n ≤
32768` values becomes one column of `n` rows. -/
theorem C10_promotion {V : Type} :
    fromNone V = .ok { fid := 12, columns := 1, rows := [0], headers := [latin1 "A"],
                       dtypes := [.f8], data := [([] : List V)] } ∧
    (∀ l : List V, l.length ≤ 32768 →
      fromdata (ArrLike.oneD l) none none none
        = .ok { fid := 12, columns := 1, rows := [(l.length : Int)],
                headers := [latin1 "A"], dtypes := [.f8], data := [l] }) := by
  have hgen : ∀ l : List V, l.length ≤ 32768 →
      fromdata (ArrLike.oneD l) none none none
        = .ok { fid := 12, columns := 1, rows := [(l.length : Int)],
                headers := [latin1 "A"], dtypes := [.f8], data := [l] } := by
    intro l hl
    unfold fromdata
    simp only [atleast_2d]
    rw [if_neg (by simp)]
    rw [if_neg (by simp)]
    split
    · rename_i e heq
      rw [show (mkRows ([l] : List (List V)).length (([l] : List (List V)).headD []).length
        none) = Except.ok [(l.length : Int)] from rfl] at heq
      exact Except.noConfusion heq
    · rename_i rows heq
      rw [show (mkRows ([l] : List (List V)).length (([l] : List (List V)).headD []).length
        none) = Except.ok [(l.length : Int)] from rfl] at heq
      obtain rfl := Except.ok.inj heq
      rw [if_neg (by simp)]
      rw [if_neg (by
        simp only [maxInt, not_lt]
        exact_mod_cast hl)]
      rfl
  exact ⟨hgen [] (by simp), hgen⟩

/-- C10 witness: the promotion at a concrete 1-D input. -/
theorem C10_witness :
    fromdata (ArrLike.oneD ([[7], [8, 9]] : List (List Nat))) none none none
      = .ok { fid := 12, columns := 1, rows := [2], headers := [latin1 "A"],
              dtypes := [.f8], data := [[[7], [8, 9]]] } :=
  (@C10_promotion (List Nat)).2 [[7], [8, 9]] (by decide)

/-- A concrete one-column table used for executable witnesses. -/
def wTable : Table (List Nat) :=
  { fid := 12, columns := 1, rows := [2], headers := [latin1 "A"],
    dtypes := [Dtype.f8], data := [[[1, 2, 3, 4, 5, 6, 7, 8], [9, 9, 9, 9]]] }

/-- C2 counterexample: constructing a Table with a 41-byte header does not
fail; the header is silently truncated to its first 40 bytes
(`headers[i][0:40]` in `_fromdata`). -/
theorem C2_counterexample :
    fromdata (ArrLike.twoD [[[7], [8]]]) (some [List.replicate 41 65]) none none
      = .ok { fid := 12, columns := 1, rows := [2],
              headers := [List.replicate 40 65], dtypes := [Dtype.f8],
              data := [[[7], [8]]] } := rfl

/-- C2 (amended): `_fromdata` silently truncates every provided header to
its first 40 bytes (so constructed tables always satisfy the 40-byte
bound), and for a stored header longer than 40 bytes the 40-byte
encoder slot (`b + b'\x00' * (40 - len(b))`) writes the header bytes
unpadded without raising any error. -/
theorem C2_truncation :
    (∀ {V : Type} (arr : ArrLike V) (hA : Option (List (List Nat)))
      (rA : Option (List Int)) (dA : Option (List Dtype)) (t : Table V),
      fromdata arr hA rA dA = .ok t → ∀ h ∈ t.headers, h.length ≤ 40) ∧
    (∀ h : List Nat, 40 < h.length → headerField 40 h = h) := by
  constructor
  · intro V arr hA rA dA t ht h hh
    obtain ⟨_, _, _, _, _, _, _, _, _, _, hh40, _⟩ := fromdata_ok_inv arr hA rA dA t ht
    exact hh40 h hh
  · intro h hh
    have hz : 40 - h.length = 0 := by omega
    simp [headerField, hz]

/-- C2 witness: both amended behaviors at concrete inputs. -/
theorem C2_witness :
    (∀ h ∈ ([[65, 66]] : List (List Nat)), h.length ≤ 40) ∧
    headerField 40 (List.replicate 41 65) = List.replicate 41 65 :=
  ⟨C2_truncation.1 (ArrLike.oneD ([[0, 1], [2, 3]] : List (List Nat))) (some [[65, 66]])
      none none _ rfl,
   C2_truncation.2 (List.replicate 41 65) (by simp)⟩

/-- C5: an unknown 2-byte file identifier makes decoding fail with
`OSError('not a QDA file or unsupported version')`; a known identifier
followed by a signed 16-bit column count that is negative or greater than
1000 makes it fail with `OSError('not a QDA file')`; in both cases no
Table is returned (the result is the error alone). -/
theorem C5_format_errors :
    (∀ {V : Type} (c : Codec V) (s : List Nat), FID (s.take 2) = none →
      fromfile c s = .error (.osError "not a QDA file or unsupported version")) ∧
    (∀ {V : Type} (c : Codec V) (fb : List Nat) (fid : Nat) (b0 b1 : Nat) (x : List Nat),
      FID fb = some fid → fb.length = 2 →
      (read_i16be b0 b1 < 0 ∨ 1000 < read_i16be b0 b1) →
      fromfile c (fb ++ b0 :: b1 :: x) = .error (.osError "not a QDA file")) := by
  constructor
  · intro V c s h
    unfold fromfile parseFid
    rw [h]
  · intro V c fb fid b0 b1 x hfb hlen hbad
    have hpf : parseFid (fb ++ b0 :: b1 :: x) = .ok (fid, b0 :: b1 :: x) := by
      unfold parseFid
      rw [List.take_left' hlen, hfb, List.drop_left' hlen]
    have hpc : parseColumns (b0 :: b1 :: x) = .error (.osError "not a QDA file") := by
      unfold parseColumns
      rw [if_neg (by simp)]
      simp only [List.getD_cons_zero, List.getD_cons_succ]
      rw [if_pos hbad]
    unfold fromfile
    rw [hpf]
    simp only
    rw [hpc]

/-- C5 witness: an unknown identifier (`FF FF`), and a valid identifier
with column count `-1`. -/
theorem C5_witness :
    fromfile byteCodec [255, 255]
      = .error (.osError "not a QDA file or unsupported version") ∧
    fromfile byteCodec ([0, 12] ++ 255 :: 255 :: [])
      = .error (.osError "not a QDA file") :=
  ⟨C5_format_errors.1 byteCodec [255, 255] rfl,
   C5_format_errors.2 byteCodec [0, 12] 12 255 255 [] rfl rfl (by decide)⟩

set_option maxRecDepth 40000 in
/-- C1 counterexample: the claim constrains only `rows[i] ≤ 32768`, but a
Table built from a 1-wide array with `rows = [-1]` satisfies that bound
while `decode(encode(t))` does not reproduce anything: the decoder reads
back `max(rows) = -1` and fails in the buffer allocation
(`numpy.empty` with a negative dimension), so no Table is returned. -/
theorem C1_counterexample :
    fromdata (ArrLike.twoD [[[1, 2, 3, 4, 5, 6, 7, 8]]]) none (some [-1]) none
      = .ok { fid := 12, columns := 1, rows := [-1], headers := [latin1 "A"],
              dtypes := [Dtype.f8], data := [[[1, 2, 3, 4, 5, 6, 7, 8]]] } ∧
    recode byteCodec { fid := 12, columns := 1, rows := [-1], headers := [latin1 "A"],
                       dtypes := [Dtype.f8], data := [[[1, 2, 3, 4, 5, 6, 7, 8]]] }
      = .error (.valueError "negative dimensions are not allowed") :=
  ⟨rfl, rfl⟩

/-- C1 witness: the amended round trip at a concrete one-column table. -/
theorem C1_witness :
    recode byteCodec wTable
      = .ok { fid := 12, columns := wTable.columns, rows := wTable.rows,
              headers := wTable.headers, dtypes := wTable.dtypes,
              data := rtData byteCodec (maxInt wTable.rows).toNat wTable.rows wTable.dtypes
                wTable.data } :=
  fromdata_roundtrip byteCodec byteCodec_ser_length byteCodec_de_ser
    (ArrLike.twoD [[[1, 2, 3, 4, 5, 6, 7, 8], [9, 9, 9, 9]]]) none none none wTable rfl
    (by decide) (by decide) (by decide)

theorem getD_map_lt {α β : Type} (f : α → β) (l : List α) (i : Nat) (hi : i < l.length)
    (dflt : β) : (l.map f).getD i dflt = f (l.get ⟨i, hi⟩) := by
  simp [List.getD, List.getElem?_map, List.getElem?_eq_getElem hi]

theorem dtypesOf_err (good : List Int) (bad : Int) (rest : List Int)
    (hg : ∀ t ∈ good, (DTYPE_STR t).isSome = true) (hb : DTYPE_STR bad = none) :
    dtypesOf (good ++ bad :: rest)
      = .error (.valueError ("the file contains data of unsupported type " ++ toString bad)) := by
  induction good with
  | nil => simp only [List.nil_append, dtypesOf, hb]
  | cons t g ih =>
    obtain ⟨d, hd⟩ := Option.isSome_iff_exists.mp (hg t (by simp))
    simp only [List.cons_append, dtypesOf, hd, List.append_eq]
    rw [ih (fun t2 ht2 => hg t2 (by simp [ht2]))]
    rfl

theorem parseRows_consume (rows : List Int) (x : List Nat) :
    parseRows 12 rows.length (rows.flatMap pack_i32be ++ x)
      = ((rows.map pack_i32be).map read_i32chunk, x) := by
  unfold parseRows
  have hif4 : (if (12 : Nat) = 12 then 4 else 2) = 4 := rfl
  have hifr : (if (12 : Nat) = 12 then read_i32chunk else read_i16chunk) = read_i32chunk := rfl
  rw [hif4, hifr]
  have hflat : rows.flatMap pack_i32be = (rows.map pack_i32be).flatten :=
    List.flatMap_def rows pack_i32be
  have hlen : (rows.map pack_i32be).length = rows.length := List.length_map rows pack_i32be
  rw [hflat, ← hlen,
    readChunks_exact 4 (rows.map pack_i32be) x (by omega)
      (fun ch hch => by
        obtain ⟨r2, _, rfl⟩ := List.mem_map.mp hch
        exact pack_i32be_length r2)]

/-- C6: a byte stream whose type-tag section contains a tag outside
`{0, 3, 4, 1}` (the tags before it being known ones) makes decoding fail
with `ValueError('the file contains data of unsupported type <tag>')`,
carrying the offending raw code; no Table is returned. -/
theorem C6_unsupported_type {V : Type} (c : Codec V) (pad : List Nat) (rows : List Int)
    (good : List Int) (bad : Int) (more : List Int) (x : List Nat)
    (hpad : pad.length = 508)
    (hlen : rows.length = (good ++ bad :: more).length)
    (hn : rows.length ≤ 1000)
    (hgood : ∀ t ∈ good, (DTYPE_STR t).isSome = true)
    (hbad : DTYPE_STR bad = none) (hbad0 : -32768 ≤ bad) (hbad1 : bad < 32768) :
    fromfile c ([0, 12] ++ (pack_i16be (rows.length : Int) ++ (pad
        ++ (rows.flatMap pack_i32be ++ ((good ++ bad :: more).flatMap pack_i16be ++ x)))))
      = .error (.valueError ("the file contains data of unsupported type " ++ toString bad)) := by
  unfold fromfile
  rw [parseFid_wire]
  simp only
  rw [parseColumns_wire ((rows.length : Int)) pad _ (by positivity) (by exact_mod_cast hn)
    hpad]
  simp only [Int.toNat_natCast]
  rw [parseRows_consume rows]
  simp only
  have htags : parseTypes rows.length ((good ++ bad :: more).flatMap pack_i16be ++ x)
      = .error (.valueError ("the file contains data of unsupported type " ++ toString bad)) := by
    unfold parseTypes
    have hflat : (good ++ bad :: more).flatMap pack_i16be
        = ((good ++ bad :: more).map pack_i16be).flatten :=
      List.flatMap_def (good ++ bad :: more) pack_i16be
    have hlen2 : ((good ++ bad :: more).map pack_i16be).length = rows.length := by
      rw [List.length_map, hlen]
    rw [hflat, ← hlen2,
      readChunks_exact 2 ((good ++ bad :: more).map pack_i16be) x (by omega)
        (fun ch hch => by
          obtain ⟨t2, _, rfl⟩ := List.mem_map.mp hch
          exact pack_i16be_length t2)]
    simp only [List.map_map, List.map_append, List.map_cons]
    have hgoodmap : List.map (read_i16chunk ∘ pack_i16be) good = good := by
      calc List.map (read_i16chunk ∘ pack_i16be) good
          = good.map (fun t => read_i16chunk (pack_i16be t)) := rfl
        _ = good.map id := List.map_congr_left (fun t hmem => read_pack_tag t (hgood t hmem))
        _ = good := List.map_id good
    have hbadmap : read_i16chunk (pack_i16be bad) = bad := read_pack_i16 bad hbad0 hbad1
    rw [hgoodmap, hbadmap, dtypesOf_err good bad (List.map (read_i16chunk ∘ pack_i16be) more)
      hgood hbad]
  rw [htags]

/-- C6 witness: a one-column stream declaring type tag 99. -/
theorem C6_witness :
    fromfile byteCodec ([0, 12] ++ (pack_i16be (([(0 : Int)] : List Int).length : Int)
        ++ (List.replicate 508 0
          ++ (([(0 : Int)] : List Int).flatMap pack_i32be
            ++ ((([] : List Int) ++ (99 : Int) :: ([] : List Int)).flatMap pack_i16be
              ++ ([] : List Nat))))))
      = .error (.valueError
          ("the file contains data of unsupported type " ++ toString (99 : Int))) :=
  C6_unsupported_type byteCodec (List.replicate 508 0) [(0 : Int)] [] 99 [] []
    (List.length_replicate 508 0) rfl (by decide) (by decide) rfl (by decide) (by decide)

/-- C7: the bytes the encoder emits after the element payload of a column (the
2-byte marker repeated `rows[i]` times, the 8-byte trailer tag, and the
header padded to 128 bytes) total exactly `136 + 2*rows[i]`, which is the
very span the decoder skips (`fh.read(136 + 2*row)` in `decodeCol`, whose
cursor lands exactly past such a trailer); and the 512-byte encoder
header block (identifier, column count, 8-byte tag, zero fill) is exactly
the `2 + 2 + 508` bytes the decoder consumes before the row counts. -/
theorem C7_layout :
    (∀ (r : Int) (h : List Nat), 0 ≤ r → h.length ≤ 128 →
      (colTrailer r h).length = (136 + 2 * r).toNat) ∧
    (∀ {V : Type} (c : Codec V) (W : Nat) (r : Int) (d : Dtype) (chunks : List (List Nat))
      (h : List Nat) (rest : List Nat), 0 ≤ r → r.toNat ≤ W → h.length ≤ 128 →
      chunks.length = r.toNat → (∀ ch ∈ chunks, ch.length = elemsize d) →
      (decodeCol c W r d (chunks.flatten ++ (colTrailer r h ++ rest))).2 = rest) ∧
    (∀ cols : Int, (headerBlock cols).length = 512) ∧
    (∀ (s : List Nat) (fid : Nat) (s1 : List Nat), parseFid s = .ok (fid, s1) →
      s1 = s.drop 2) ∧
    (∀ (s1 : List Nat) (cols : Int) (s2 : List Nat), parseColumns s1 = .ok (cols, s2) →
      s2 = (s1.drop 2).drop 508) := by
  refine ⟨?_, ?_, ?_, ?_, ?_⟩
  · intro r h hr hh
    rw [colTrailer_length r h hh]
    omega
  · intro V c W r d chunks h rest hr hrW hh hcl hck
    rw [decodeCol_exact c W r d chunks (colTrailer r h) rest hr hrW hcl hck
      (colTrailer_length r h hh)]
  · intro cols
    simp only [headerBlock, List.length_append, List.length_replicate, pack_i16be_length]
    rfl
  · intro s fid s1 hp
    unfold parseFid at hp
    split at hp
    · exact Except.noConfusion hp
    · exact congrArg Prod.snd (Except.ok.inj hp).symm
  · intro s1 cols s2 hp
    unfold parseColumns at hp
    split at hp
    · exact Except.noConfusion hp
    simp only [] at hp
    split at hp
    · exact Except.noConfusion hp
    · exact congrArg Prod.snd (Except.ok.inj hp).symm

/-- C7 witness: the layout facts at `rows[i] = 2`, header `B`, a float64
column, and a 3-column header block. -/
theorem C7_witness :
    (colTrailer 2 [66]).length = ((136 : Int) + 2 * 2).toNat ∧
    (decodeCol byteCodec 2 2 Dtype.f8
        ([[1, 1, 1, 1, 1, 1, 1, 1], [2, 2, 2, 2, 2, 2, 2, 2]].flatten
          ++ (colTrailer 2 [66] ++ [7, 7, 7]))).2 = [7, 7, 7] ∧
    (headerBlock 3).length = 512 ∧
    ([(0 : Nat), 12, 0, 3, 9, 9] : List Nat).drop 2 = [0, 3, 9, 9] := by
  refine ⟨C7_layout.1 2 [66] (by decide) (by decide), ?_, C7_layout.2.2.1 3, ?_⟩
  · exact C7_layout.2.1 byteCodec 2 2 Dtype.f8 _ [66] [7, 7, 7] (by decide) (by decide)
      (by decide) (by decide) (by decide)
  · exact C7_layout.2.2.2.1 [0, 12, 0, 3, 9, 9] 12 [0, 3, 9, 9] rfl

/-- C8: decoding a well-formed stream in which column `i` declares the
fixed-40-byte-string type (tag 1) does not fail: the whole table decodes
(so the cursor advanced exactly over the `40*rows[i]` payload
bytes of column `i` and its `136 + 2*rows[i]` trailer, letting every other column be
read from the correct offset), and the data row of column `i` is entirely NaN
while its declared dtype is the string placeholder. -/
theorem C8_s40_column {V : Type} (c : Codec V) (pad : List Nat) (descs : List ColDesc)
    (rest : List Nat) (i : Nat) (hi : i < descs.length)
    (hpad : pad.length = 508) (hn : descs.length ≤ 1000) (hwf : ∀ cd ∈ descs, cd.WF)
    (htag : (descs.get ⟨i, hi⟩).tag = 1) :
    fromfile c (wireStream pad descs rest)
      = .ok { fid := 12, columns := (descs.length : Int), rows := descs.map ColDesc.row,
              headers := descs.map ColDesc.header, dtypes := descs.map ColDesc.dtype,
              data := descs.map (wireRow c (wireW descs)) } ∧
    (descs.map (wireRow c (wireW descs))).getD i []
      = List.replicate (wireW descs) c.nan ∧
    (descs.map ColDesc.dtype).getD i .f8 = .s40 := by
  have hdt : (descs.get ⟨i, hi⟩).dtype = .s40 := by
    rw [ColDesc.dtype, htag]
    rfl
  refine ⟨fromfile_wire c pad descs rest hpad hn hwf, ?_, ?_⟩
  · rw [getD_map_lt (wireRow c (wireW descs)) descs i hi []]
    rw [wireRow, if_pos hdt]
  · rw [getD_map_lt ColDesc.dtype descs i hi .f8, hdt]

set_option maxRecDepth 40000 in
/-- C8 witness: a two-column stream, the first column of string type
(tag 1) with one 40-byte payload element, the second a float32 column. -/
theorem C8_witness :
    fromfile byteCodec (wireStream (List.replicate 508 0) wDescs [])
      = .ok { fid := 12, columns := (wDescs.length : Int), rows := wDescs.map ColDesc.row,
              headers := wDescs.map ColDesc.header, dtypes := wDescs.map ColDesc.dtype,
              data := wDescs.map (wireRow byteCodec (wireW wDescs)) } ∧
    (wDescs.map (wireRow byteCodec (wireW wDescs))).getD 0 []
      = List.replicate (wireW wDescs) byteCodec.nan ∧
    (wDescs.map ColDesc.dtype).getD 0 .f8 = .s40 :=
  C8_s40_column byteCodec (List.replicate 508 0) wDescs [] 0 (by decide)
    (List.length_replicate 508 0) (by decide) (by decide) (by decide)

end Qdafile
